import Mathlib

/-!
Verification of the x-postgres declarative schema engine.

The development shallowly embeds the engine's pure core — the string
utilities, the default-value normalizer, the YAML field-DSL parser, the
SQL emitter, the diff engine, the migration orchestrator's per-table
statement accumulation, the seed reconciler's match-column discovery and
the executor's named-parameter rewrite — as executable Lean functions
over `List Char` strings, and proves properties about them.

Strings are modelled as `List Char`; JavaScript string operations
(trim, split, replace, regular-expression matching as used at each
call site) are reproduced as recursive functions on character lists.
-/

set_option maxHeartbeats 1000000

namespace XPg

/-- Strings, modelled as lists of characters. -/
abbrev Str := List Char

/-- Character list of a literal. -/
def chs (s : String) : Str := s.data

/-- The single-quote character. -/
def sq : Char := Char.ofNat 39

/-- The double-quote character. -/
def dq : Char := Char.ofNat 34

/-- Wrap an identifier in double quotes. -/
def qt (s : Str) : Str := dq :: (s ++ [dq])

/-- JavaScript whitespace (the ASCII part of `\s`). -/
def isWsCh (c : Char) : Bool :=
  c = ' ' || c = '\t' || c = '\n' || c = '\r' || c = '\x0b' || c = '\x0c'

/-- JavaScript `String.prototype.trim`. -/
def trimWs (l : Str) : Str :=
  ((l.dropWhile isWsCh).reverse.dropWhile isWsCh).reverse

theorem lengthDropWhileLe (p : Char → Bool) (l : Str) :
    (l.dropWhile p).length ≤ l.length :=
  (List.dropWhile_suffix p).sublist.length_le

/-- Fuel-indexed worker for `collapseWs` (structural recursion on the fuel,
so that the kernel can evaluate it; the fuel never runs out when it starts
at the length of the list). -/
def collapseGo : Nat → Str → Str
  | _, [] => []
  | 0, _ :: _ => []
  | fuel + 1, c :: cs =>
    if isWsCh c then ' ' :: collapseGo fuel (cs.dropWhile isWsCh)
    else c :: collapseGo fuel cs

/-- JavaScript `replace(/\s+/g, ' ')`: collapse whitespace runs to one space. -/
def collapseWs (l : Str) : Str := collapseGo l.length l

theorem collapseGo_fuel : ∀ (f f' : Nat) (l : Str), l.length ≤ f → l.length ≤ f' →
    collapseGo f l = collapseGo f' l := by
  intro f
  induction f with
  | zero =>
    intro f' l hf _
    have : l = [] := List.length_eq_zero.mp (Nat.le_zero.mp hf)
    subst this
    cases f' <;> rfl
  | succ f ih =>
    intro f' l hf hf'
    cases l with
    | nil => cases f' <;> rfl
    | cons c cs =>
      cases f' with
      | zero => simp at hf'
      | succ f'' =>
        simp only [List.length_cons, Nat.add_le_add_iff_right] at hf hf'
        rw [collapseGo, collapseGo]
        by_cases hw : isWsCh c = true
        · rw [if_pos hw, if_pos hw,
            ih f'' (cs.dropWhile isWsCh) (Nat.le_trans (lengthDropWhileLe _ _) hf)
              (Nat.le_trans (lengthDropWhileLe _ _) hf')]
        · rw [if_neg hw, if_neg hw, ih f'' cs hf hf']

theorem collapseWs_nil : collapseWs [] = [] := rfl

theorem collapseWs_cons (c : Char) (cs : Str) :
    collapseWs (c :: cs) =
      if isWsCh c then ' ' :: collapseWs (cs.dropWhile isWsCh)
      else c :: collapseWs cs := by
  show collapseGo (cs.length + 1) (c :: cs) = _
  rw [collapseGo]
  by_cases hw : isWsCh c = true
  · rw [if_pos hw, if_pos hw,
      collapseGo_fuel cs.length (cs.dropWhile isWsCh).length (cs.dropWhile isWsCh)
        (lengthDropWhileLe _ _) (Nat.le_refl _)]
    rfl
  · rw [if_neg hw, if_neg hw]
    rfl

/-- Induction principle matching the recursion structure of `collapseWs`. -/
theorem collapseRec {motive : Str → Prop} (h1 : motive [])
    (h2 : ∀ c cs, isWsCh c = true → motive (cs.dropWhile isWsCh) → motive (c :: cs))
    (h3 : ∀ c cs, ¬isWsCh c = true → motive cs → motive (c :: cs)) :
    ∀ l, motive l := by
  have H : ∀ n, ∀ l : Str, l.length = n → motive l := by
    intro n
    induction n using Nat.strong_induction_on with
    | _ n ih =>
      intro l hn
      cases l with
      | nil => exact h1
      | cons c cs =>
        subst hn
        by_cases hw : isWsCh c = true
        · exact h2 c cs hw (ih (cs.dropWhile isWsCh).length
            (Nat.lt_succ_of_le (lengthDropWhileLe _ _)) _ rfl)
        · exact h3 c cs hw (ih cs.length (Nat.lt_succ_of_le (Nat.le_refl _)) _ rfl)
  exact fun l => H l.length l rfl

/-- ASCII lower-casing of one character. -/
def lowCh : Char → Char
  | 'A' => 'a' | 'B' => 'b' | 'C' => 'c' | 'D' => 'd' | 'E' => 'e' | 'F' => 'f'
  | 'G' => 'g' | 'H' => 'h' | 'I' => 'i' | 'J' => 'j' | 'K' => 'k' | 'L' => 'l'
  | 'M' => 'm' | 'N' => 'n' | 'O' => 'o' | 'P' => 'p' | 'Q' => 'q' | 'R' => 'r'
  | 'S' => 's' | 'T' => 't' | 'U' => 'u' | 'V' => 'v' | 'W' => 'w' | 'X' => 'x'
  | 'Y' => 'y' | 'Z' => 'z' | c => c

/-- ASCII upper-casing of one character. -/
def upCh : Char → Char
  | 'a' => 'A' | 'b' => 'B' | 'c' => 'C' | 'd' => 'D' | 'e' => 'E' | 'f' => 'F'
  | 'g' => 'G' | 'h' => 'H' | 'i' => 'I' | 'j' => 'J' | 'k' => 'K' | 'l' => 'L'
  | 'm' => 'M' | 'n' => 'N' | 'o' => 'O' | 'p' => 'P' | 'q' => 'Q' | 'r' => 'R'
  | 's' => 'S' | 't' => 'T' | 'u' => 'U' | 'v' => 'V' | 'w' => 'W' | 'x' => 'X'
  | 'y' => 'Y' | 'z' => 'Z' | c => c

/-- JavaScript `toLowerCase` (ASCII fragment). -/
def lowerStr (l : Str) : Str := l.map lowCh

/-- JavaScript `toUpperCase` (ASCII fragment). -/
def upperStr (l : Str) : Str := l.map upCh

/-- `strStarts pat l`: `l` starts with `pat` (JavaScript `startsWith`). -/
def strStarts : Str → Str → Bool
  | [], _ => true
  | _ :: _, [] => false
  | p :: ps, c :: cs => p = c && strStarts ps cs

/-- JavaScript `includes`: `pat` occurs somewhere in the string. -/
def containsSub (pat : Str) : Str → Bool
  | [] => pat.isEmpty
  | c :: cs => strStarts pat (c :: cs) || containsSub pat cs

/-- Fuel-indexed worker for `splitWsRe`, carrying the current (reversed)
token; the fuel starts at the length of the list and never runs out. -/
def splitWsGo : Nat → Str → Str → List Str
  | _, [], cur => [cur.reverse]
  | 0, _ :: _, cur => [cur.reverse]
  | fuel + 1, c :: cs, cur =>
    if isWsCh c then cur.reverse :: splitWsGo fuel (cs.dropWhile isWsCh) []
    else splitWsGo fuel cs (c :: cur)

/-- JavaScript `split(/\s+/)`. -/
def splitWsRe (l : Str) : List Str := splitWsGo l.length l []

/-- Decimal rendering of a natural number. -/
def natStr (n : Nat) : Str := (toString n).data

/-- Decimal rendering of an integer (JavaScript `String(n)`). -/
def intStr (i : Int) : Str := (toString i).data

/-- JavaScript `replace(/'/g, "''")`. -/
def escSq (l : Str) : Str := l.flatMap (fun c => if c = sq then [sq, sq] else [c])

/-- JavaScript `replace(/''/g, "'")`: collapse doubled single quotes. -/
def unescSq : Str → Str
  | [] => []
  | [c] => [c]
  | c1 :: c2 :: cs =>
    if c1 = sq && c2 = sq then sq :: unescSq cs
    else c1 :: unescSq (c2 :: cs)

/-- Case-insensitive global removal of the (lower-case, nonempty) pattern
`pat`, as JavaScript `replace(/pat/gi, '')`. -/
def removeAllCI (pat : Str) : Str → Str
  | [] => []
  | c :: cs =>
    if _h : 0 < pat.length ∧ strStarts pat (lowerStr (c :: cs)) = true then
      removeAllCI pat ((c :: cs).drop pat.length)
    else c :: removeAllCI pat cs
termination_by l => l.length
decreasing_by
  · simp only [List.length_drop, List.length_cons]
    omega
  · simp only [List.length_cons]
    exact Nat.lt_succ_of_le (Nat.le_refl _)

/-- First-match association lookup (JavaScript object property read,
assuming distinct keys). -/
def alookup (k : Str) : List (Str × α) → Option α
  | [] => none
  | (k', v) :: t => if k' = k then some v else alookup k t

/-- JavaScript object property assignment: replace in place, else append. -/
def oassign (k : Str) (v : α) : List (Str × α) → List (Str × α)
  | [] => [(k, v)]
  | (k', v') :: t => if k' = k then (k, v) :: t else (k', v') :: oassign k v t

/-! ### Default normalizer (`defaultNormalizer.ts`) -/

/-- ASCII digit (`\d`). -/
def isDigitCh (c : Char) : Bool := '0' ≤ c && c ≤ '9'

/-- Hexadecimal digit (`[0-9a-f]` with the `i` flag). -/
def isHexCh (c : Char) : Bool :=
  isDigitCh c || ('a' ≤ c && c ≤ 'f') || ('A' ≤ c && c ≤ 'F')

/-- ASCII letter (`[a-zA-Z]`). -/
def isAlphaCh (c : Char) : Bool := ('a' ≤ c && c ≤ 'z') || ('A' ≤ c && c ≤ 'Z')

/-- JavaScript `/\)\s*$/.test(l)`. -/
def endsCloseParen (l : Str) : Bool :=
  match l.reverse.dropWhile isWsCh with
  | c :: _ => c = ')'
  | [] => false

/-- JavaScript `/^-?\d+(\.\d+)?$/.test(l)`. -/
def numericTest (l : Str) : Bool :=
  let l1 := match l with
    | '-' :: t => t
    | _ => l
  let ds := l1.takeWhile isDigitCh
  let rest := l1.dropWhile isDigitCh
  decide (ds ≠ []) &&
    (match rest with
     | [] => true
     | '.' :: fr => decide (fr ≠ []) && fr.all isDigitCh
     | _ => false)

/-- JavaScript UUID-literal test
`/^[0-9a-f]{8}-[0-9a-f]{4}-[0-9a-f]{4}-[0-9a-f]{4}-[0-9a-f]{12}$/i`. -/
def uuidTest (l : Str) : Bool :=
  match l.splitOn '-' with
  | [a, b, c, d, e] =>
    a.length = 8 && b.length = 4 && c.length = 4 && d.length = 4 && e.length = 12
      && a.all isHexCh && b.all isHexCh && c.all isHexCh && d.all isHexCh && e.all isHexCh
  | _ => false

/-- `normalizeDefaultSql(rawDefault, typeRealUpper)`: convert a raw DSL default
into a statement-ready SQL expression, or `none` for "no DEFAULT clause". -/
def normalizeDefaultSql (rawDefault : Option Str) (typeRealUpper : Str) : Option Str :=
  match rawDefault with
  | none => none
  | some rd0 =>
    let raw0 := trimWs rd0
    if raw0 = [] then none
    else if lowerStr raw0 = chs "null" then none
    else
      let raw := if strStarts (chs "default ") (lowerStr raw0) then trimWs (raw0.drop 8) else raw0
      let upperRaw := upperStr raw
      if endsCloseParen raw || upperRaw = chs "CURRENT_TIMESTAMP"
          || upperRaw = chs "CURRENT_DATE" || upperRaw = chs "CURRENT_TIME" then
        some raw
      else if lowerStr raw = chs "true" || lowerStr raw = chs "false" then
        some (upperStr raw)
      else if numericTest raw then
        some raw
      else if containsSub (chs "JSONB") typeRealUpper || containsSub (chs "JSON") typeRealUpper then
        match raw.head? with
        | some c =>
          if c = '{' || c = '[' then
            if containsSub (chs "JSONB") typeRealUpper then
              some ((sq :: escSq raw) ++ [sq] ++ chs "::jsonb")
            else
              some ((sq :: escSq raw) ++ [sq] ++ chs "::json")
          else some raw
        | none => some raw
      else if uuidTest raw then
        some ((sq :: lowerStr raw) ++ [sq])
      else if raw.head? = some sq ∧ raw.getLast? = some sq ∧ 2 ≤ raw.length then
        some raw
      else
        let raw2 :=
          if raw.head? = some dq ∧ raw.getLast? = some dq ∧ 2 ≤ raw.length then
            (raw.drop 1).dropLast
          else raw
        some ((sq :: escSq raw2) ++ [sq])

/-- `buildDefaultClause`: the full `DEFAULT <expr>` clause, or empty. -/
def buildDefaultClause (rawDefault : Option Str) (typeRealUpper : Str) : Str :=
  match normalizeDefaultSql rawDefault typeRealUpper with
  | none => []
  | some s => chs "DEFAULT " ++ s

/-- Character admissible in the trailing-cast identifier (`[a-zA-Z0-9_ ]`). -/
def isCastTailCh (c : Char) : Bool := isAlphaCh c || isDigitCh c || c = '_' || c = ' '

/-- The tail of a trailing `::type` cast: `[a-zA-Z][a-zA-Z0-9_ ]*`. -/
def validCastTail : Str → Bool
  | [] => false
  | c :: cs => isAlphaCh c && cs.all isCastTailCh

/-- JavaScript `.` without the `s` flag: any character but a line terminator. -/
def isDotCh (c : Char) : Bool := !(c = '\n' || c = '\r')

/-- Candidate match of `/^(.*)::[a-zA-Z][a-zA-Z0-9_ ]*$/` splitting at the
current position (group 1 empty). -/
def castHere (c : Char) (cs : Str) : Option (Str × Str) :=
  match c, cs with
  | ':', ':' :: t => if validCastTail t then some ([], t) else none
  | _, _ => none

/-- Greedy match of `/^(.*)::[a-zA-Z][a-zA-Z0-9_ ]*$/`: the longest
line-terminator-free group-1 prefix `p` with `input = p ++ "::" ++ tail`
and a valid cast tail. -/
def castSplit : Str → Option (Str × Str)
  | [] => none
  | c :: cs =>
    match castSplit cs with
    | some (p, t) => if isDotCh c then some (c :: p, t) else castHere c cs
    | none => castHere c cs

theorem castHere_eq {c : Char} {cs p t : Str} (h : castHere c cs = some (p, t)) :
    p = [] ∧ c = ':' ∧ cs = ':' :: t := by
  unfold castHere at h
  split at h
  · split at h
    · injection h with h2
      injection h2 with hp ht
      exact ⟨hp.symm, rfl, by rw [ht]⟩
    · exact absurd h (by simp)
  · exact absurd h (by simp)

theorem castSplit_eq : ∀ {d p t : Str}, castSplit d = some (p, t) →
    d = p ++ ':' :: ':' :: t := by
  intro d
  induction d with
  | nil => intro p t h; simp [castSplit] at h
  | cons c cs ih =>
    intro p t h
    rw [castSplit] at h
    split at h
    · rename_i p' t' hd
      split at h
      · injection h with h2
        injection h2 with hp ht
        subst ht
        rw [← hp]
        simp [ih hd]
      · obtain ⟨hp, hc, hcs⟩ := castHere_eq h
        subst hp hc
        simp [hcs]
    · obtain ⟨hp, hc, hcs⟩ := castHere_eq h
      subst hp hc
      simp [hcs]

theorem trimWs_length_le (l : Str) : (trimWs l).length ≤ l.length := by
  unfold trimWs
  calc ((l.dropWhile isWsCh).reverse.dropWhile isWsCh).reverse.length
      = ((l.dropWhile isWsCh).reverse.dropWhile isWsCh).length := List.length_reverse _
    _ ≤ (l.dropWhile isWsCh).reverse.length := lengthDropWhileLe _ _
    _ = (l.dropWhile isWsCh).length := List.length_reverse _
    _ ≤ l.length := lengthDropWhileLe _ _

/-- Fuel-indexed worker for `stripCasts`; the fuel starts at the length of
the string and never runs out, since each matched strip removes at least
two characters. -/
def stripGo : Nat → Str → Str
  | 0, d => d
  | fuel + 1, d =>
    match castSplit d with
    | some (p, _) => stripGo fuel (trimWs p)
    | none => d

/-- The `while` loop of `normalizeDbDefaultForCompare` that repeatedly strips
a trailing `::type` cast (and trims) until the pattern no longer matches. -/
def stripCasts (d : Str) : Str := stripGo d.length d

theorem castSplit_length {d p t : Str} (h : castSplit d = some (p, t)) :
    p.length + 2 ≤ d.length := by
  have he := castSplit_eq h
  rw [he]
  simp [List.length_append]

theorem stripGo_fuel : ∀ (f f' : Nat) (d : Str), d.length ≤ f → d.length ≤ f' →
    stripGo f d = stripGo f' d := by
  intro f
  induction f with
  | zero =>
    intro f' d hf _
    have hd : d = [] := List.length_eq_zero.mp (Nat.le_zero.mp hf)
    subst hd
    cases f' with
    | zero => rfl
    | succ g => simp [stripGo, castSplit]
  | succ f ih =>
    intro f' d hf hf'
    cases f' with
    | zero =>
      have hd : d = [] := List.length_eq_zero.mp (Nat.le_zero.mp hf')
      subst hd
      simp [stripGo, castSplit]
    | succ g =>
      rw [stripGo, stripGo]
      cases hc : castSplit d with
      | none => rfl
      | some pt =>
        obtain ⟨p, t⟩ := pt
        have hl := castSplit_length hc
        have htl : (trimWs p).length ≤ p.length := trimWs_length_le p
        exact ih g (trimWs p) (by omega) (by omega)

theorem stripCasts_of_none {d : Str} (h : castSplit d = none) : stripCasts d = d := by
  show stripGo d.length d = d
  cases hn : d.length with
  | zero => rfl
  | succ n => rw [stripGo, h]

theorem stripCasts_some {d p t : Str} (h : castSplit d = some (p, t)) :
    stripCasts d = stripCasts (trimWs p) := by
  show stripGo d.length d = stripGo (trimWs p).length (trimWs p)
  have hl := castSplit_length h
  have htl : (trimWs p).length ≤ p.length := trimWs_length_le p
  cases hn : d.length with
  | zero => omega
  | succ n =>
    rw [stripGo, h]
    exact stripGo_fuel n (trimWs p).length (trimWs p) (by omega) (Nat.le_refl _)

/-- Induction principle matching the recursion structure of `stripCasts`. -/
theorem stripCastsRec {motive : Str → Prop}
    (h1 : ∀ d p t, castSplit d = some (p, t) → motive (trimWs p) → motive d)
    (h2 : ∀ d, castSplit d = none → motive d) : ∀ d, motive d := by
  have H : ∀ n, ∀ d : Str, d.length = n → motive d := by
    intro n
    induction n using Nat.strong_induction_on with
    | _ n ih =>
      intro d hn
      cases hc : castSplit d with
      | none => exact h2 d hc
      | some pt =>
        obtain ⟨p, t⟩ := pt
        have hl := castSplit_length hc
        have htl : (trimWs p).length ≤ p.length := trimWs_length_le p
        exact h1 d p t hc (ih (trimWs p).length (by omega) _ rfl)
  exact fun d => H d.length d rfl

/-- The `/^\((.*)\)$/` strip of one outer parenthesis pair (plus trim). -/
def parenStrip (d : Str) : Str :=
  if d.head? = some '(' ∧ d.getLast? = some ')' ∧ 2 ≤ d.length
      ∧ ((d.drop 1).dropLast).all isDotCh then
    trimWs ((d.drop 1).dropLast)
  else d

/-- The `/^'(.*)'$/s` strip of one outer single-quote pair (no trim). -/
def quoteStrip (d : Str) : Str :=
  if d.head? = some sq ∧ d.getLast? = some sq ∧ 2 ≤ d.length then
    (d.drop 1).dropLast
  else d

/-- Lower-case a `TRUE`/`FALSE` value. -/
def boolLowerStr (d : Str) : Str :=
  if lowerStr d = chs "true" ∨ lowerStr d = chs "false" then lowerStr d else d

/-- `normalizeDbDefaultForCompare`: canonicalize a reflected `column_default`
for comparison. -/
def normalizeDbDefaultForCompare (d0 : Str) : Str :=
  let d1 := trimWs d0
  if d1 = [] then []
  else
    let d2 := collapseWs d1
    if containsSub (chs "nextval(") (lowerStr d2) then d2
    else
      let d3 :=
        if strStarts (chs "encode(") (lowerStr d2) then
          removeAllCI (chs "::unknown") (removeAllCI (chs "::text") d2)
        else d2
      let d4 := stripCasts d3
      let d5 := parenStrip d4
      let d6 := quoteStrip d5
      let d7 := boolLowerStr d6
      unescSq d7

/-! ### Data model (`types.ts`) -/

/-- Row from `information_schema.columns` (reflected column shape). -/
structure DbColumnInfo where
  data_type : Str
  is_nullable : Str
  character_maximum_length : Option Int
  column_default : Option Str
  numeric_precision : Option Int
  numeric_scale : Option Int
deriving DecidableEq, Repr

/-- Parsed field definition from the YAML DSL. -/
structure FieldDefinition where
  field : Str
  type : Str
  nullable : Str
  key : Str
  defaultValue : Option Str
  extra : Str
deriving DecidableEq, Repr

/-- Result of parsing one table's field list. -/
structure ParsedSchema where
  fields : List (Str × FieldDefinition)
  individualIndexes : List Str
  compositeIndexes : List (Str × List Str)
  compositeUniqueIndexes : List (Str × List Str)
deriving DecidableEq, Repr

/-- A queued SQL action. -/
structure QueuedQuery where
  sql : Str
  table : Str
  type : Str
  description : Str
deriving DecidableEq, Repr

/-! ### Type dictionary (`typeDictionary.ts`) -/

def POSTGRES_TYPE_DICTIONARY : List (Str × Str) := [
  (chs "SERIAL", chs "integer"),
  (chs "SMALLSERIAL", chs "smallint"),
  (chs "BIGSERIAL", chs "bigint"),
  (chs "SERIAL2", chs "smallint"),
  (chs "SERIAL4", chs "integer"),
  (chs "SERIAL8", chs "bigint"),
  (chs "VARCHAR", chs "character varying"),
  (chs "CHAR", chs "character"),
  (chs "TEXT", chs "text"),
  (chs "INT", chs "integer"),
  (chs "INTEGER", chs "integer"),
  (chs "INT2", chs "smallint"),
  (chs "INT4", chs "integer"),
  (chs "INT8", chs "bigint"),
  (chs "SMALLINT", chs "smallint"),
  (chs "BIGINT", chs "bigint"),
  (chs "REAL", chs "real"),
  (chs "DOUBLE", chs "double precision"),
  (chs "FLOAT", chs "double precision"),
  (chs "FLOAT4", chs "real"),
  (chs "FLOAT8", chs "double precision"),
  (chs "NUMERIC", chs "numeric"),
  (chs "DECIMAL", chs "numeric"),
  (chs "TIMESTAMP", chs "timestamp without time zone"),
  (chs "TIMESTAMPTZ", chs "timestamp with time zone"),
  (chs "DATE", chs "date"),
  (chs "TIME", chs "time without time zone"),
  (chs "TIMETZ", chs "time with time zone"),
  (chs "BOOLEAN", chs "boolean"),
  (chs "BOOL", chs "boolean"),
  (chs "JSON", chs "json"),
  (chs "JSONB", chs "jsonb"),
  (chs "UUID", chs "uuid"),
  (chs "VARBIT", chs "bit varying")]

def typeDictLookup (k : Str) : Option Str := alookup k POSTGRES_TYPE_DICTIONARY

/-! ### Diff engine (`diffEngine.ts`) -/

/-- Word character (`\w`). -/
def isWordCh (c : Char) : Bool := isAlphaCh c || isDigitCh c || c = '_'

/-- The `/^(\w+)(?:\((\d+(?:,\d+)?)\))?$/` match on a config type:
base type plus optional parenthesized length/precision spec. -/
def typeMatchRe (l : Str) : Option (Str × Option Str) :=
  let base := l.takeWhile isWordCh
  let rest := l.dropWhile isWordCh
  if base = [] then none
  else
    match rest with
    | [] => some (base, none)
    | '(' :: r1 =>
      let ds := r1.takeWhile isDigitCh
      let r2 := r1.dropWhile isDigitCh
      if ds = [] then none
      else
        match r2 with
        | [')'] => some (base, some ds)
        | ',' :: r3 =>
          let ds2 := r3.takeWhile isDigitCh
          let r4 := r3.dropWhile isDigitCh
          if ds2 = [] then none
          else
            match r4 with
            | [')'] => some (base, some (ds ++ [','] ++ ds2))
            | _ => none
        | _ => none
    | _ => none

def alterTypeSql (table colName configType : Str) : Str :=
  chs "ALTER TABLE " ++ qt table ++ chs " ALTER COLUMN " ++ qt colName
    ++ chs " TYPE " ++ configType ++ chs ";"

def checkTypeMismatch (table colName : Str) (configType : Str)
    (dbCol : DbColumnInfo) : List QueuedQuery :=
  let parsed := typeMatchRe configType
  let configBaseType :=
    match parsed with
    | some (b, _) => b
    | none => (configType.splitOn '(').headD []
  let configLength : Option Str :=
    match parsed with
    | some (_, l) => l
    | none => none
  let mappedConfigType := (typeDictLookup configBaseType).getD (lowerStr configBaseType)
  let dbType := lowerStr dbCol.data_type
  let dbLength := dbCol.character_maximum_length
  if mappedConfigType ≠ dbType then
    [⟨alterTypeSql table colName configType, table, chs "ALTER_COLUMN",
      chs "Change type of " ++ colName ++ chs " to " ++ configType⟩]
  else
    match configLength with
    | none => []
    | some cfgLen =>
      let isNumericType := dbType = chs "numeric" ∨ dbType = chs "decimal"
        ∨ configBaseType = chs "NUMERIC" ∨ configBaseType = chs "DECIMAL"
      if isNumericType then
        let parts := cfgLen.splitOn ','
        let cfgPrecision := parts.headD []
        let cfgScale : Option Str := parts.get? 1
        let precisionMismatch : Bool :=
          match dbCol.numeric_precision with
          | some p => decide (intStr p ≠ cfgPrecision)
          | none => false
        let scaleMismatch : Bool :=
          match cfgScale with
          | some s =>
            if s = [] then false
            else
              match dbCol.numeric_scale with
              | some sc => decide (intStr sc ≠ s)
              | none => false
          | none => false
        if precisionMismatch || scaleMismatch then
          [⟨alterTypeSql table colName configType, table, chs "ALTER_COLUMN",
            chs "Change precision of " ++ colName ++ chs " to " ++ configType⟩]
        else []
      else
        match dbLength with
        | some n =>
          if intStr n ≠ (cfgLen.splitOn ',').headD [] then
            [⟨alterTypeSql table colName configType, table, chs "ALTER_COLUMN",
              chs "Change length of " ++ colName ++ chs " to " ++ configType⟩]
          else []
        | none => []

def checkDefaultMismatch (table colName : Str) (fieldDef : FieldDefinition)
    (dbCol : DbColumnInfo) : List QueuedQuery :=
  let typeUpper := fieldDef.type
  let dbDefaultRaw := dbCol.column_default.getD []
  if containsSub (chs "SERIAL") typeUpper then []
  else if fieldDef.key = chs "PRI" ∧ containsSub (chs "nextval(") (lowerStr dbDefaultRaw) then []
  else
    let configDefaultClause := buildDefaultClause fieldDef.defaultValue typeUpper
    let configDefaultSql := if configDefaultClause = [] then [] else trimWs (configDefaultClause.drop 8)
    let dbDefaultNorm := normalizeDbDefaultForCompare dbDefaultRaw
    let cfgDefaultNorm := normalizeDbDefaultForCompare configDefaultSql
    if cfgDefaultNorm = [] ∧ dbDefaultNorm ≠ [] then
      [⟨chs "ALTER TABLE " ++ qt table ++ chs " ALTER COLUMN " ++ qt colName
          ++ chs " DROP DEFAULT;", table, chs "ALTER_COLUMN",
        chs "Drop default on " ++ colName⟩]
    else if cfgDefaultNorm ≠ [] ∧ dbDefaultNorm ≠ cfgDefaultNorm then
      [⟨chs "ALTER TABLE " ++ qt table ++ chs " ALTER COLUMN " ++ qt colName
          ++ chs " SET DEFAULT " ++ configDefaultSql ++ chs ";", table, chs "ALTER_COLUMN",
        chs "Set default on " ++ colName⟩]
    else []

def checkNullableMismatch (table colName : Str) (fieldDef : FieldDefinition)
    (dbCol : DbColumnInfo) : List QueuedQuery :=
  if containsSub (chs "SERIAL") fieldDef.type then []
  else if fieldDef.nullable = [] then []
  else
    let yamlWantsNotNull := fieldDef.nullable = chs "NOT NULL"
    let dbIsNotNull := dbCol.is_nullable = chs "NO"
    if yamlWantsNotNull ∧ ¬dbIsNotNull then
      [⟨chs "ALTER TABLE " ++ qt table ++ chs " ALTER COLUMN " ++ qt colName
          ++ chs " SET NOT NULL;", table, chs "ALTER_COLUMN",
        chs "Set NOT NULL on " ++ colName⟩]
    else if ¬yamlWantsNotNull ∧ dbIsNotNull then
      [⟨chs "ALTER TABLE " ++ qt table ++ chs " ALTER COLUMN " ++ qt colName
          ++ chs " DROP NOT NULL;", table, chs "ALTER_COLUMN",
        chs "Drop NOT NULL on " ++ colName⟩]
    else []

/-- The `ADD COLUMN` statement of `diffColumns` (whitespace-collapsed). -/
def addColumnQuery (table k : Str) (v : FieldDefinition) : QueuedQuery :=
  let typeUpper := v.type
  let defaultClause :=
    if containsSub (chs "SERIAL") typeUpper then []
    else buildDefaultClause v.defaultValue typeUpper
  let rawSql := chs "ALTER TABLE " ++ qt table ++ chs " ADD COLUMN " ++ qt k
    ++ chs " " ++ typeUpper ++ chs " " ++ v.nullable ++ chs " " ++ defaultClause
    ++ chs " " ++ v.extra ++ chs ";"
  ⟨trimWs (collapseWs rawSql), table, chs "ADD_COLUMN",
   chs "Add column " ++ k ++ chs " (" ++ typeUpper ++ chs ")"⟩

def dropColumnQueries (table : Str) (fields : List (Str × FieldDefinition))
    (currentColumns : List (Str × DbColumnInfo)) : List QueuedQuery :=
  (currentColumns.map Prod.fst).filterMap (fun column =>
    if alookup column fields = none then
      some ⟨chs "ALTER TABLE " ++ qt table ++ chs " DROP COLUMN " ++ qt column ++ chs ";",
            table, chs "DROP_COLUMN", chs "Drop column " ++ column⟩
    else none)

def addColumnQueries (table : Str) (fields : List (Str × FieldDefinition))
    (currentColumns : List (Str × DbColumnInfo)) : List QueuedQuery :=
  fields.filterMap (fun kv =>
    if alookup kv.1 currentColumns = none then some (addColumnQuery table kv.1 kv.2)
    else none)

def alterColumnQueries (table : Str) (fields : List (Str × FieldDefinition))
    (currentColumns : List (Str × DbColumnInfo)) : List QueuedQuery :=
  fields.flatMap (fun kv =>
    match alookup kv.1 currentColumns with
    | none => []
    | some dbCol =>
      checkTypeMismatch table kv.1 kv.2.type dbCol
        ++ checkDefaultMismatch table kv.1 kv.2 dbCol
        ++ checkNullableMismatch table kv.1 kv.2 dbCol)

/-- Diff-engine input: the table, its parsed schema and the reflected shape. -/
structure DiffContext where
  table : Str
  schema : ParsedSchema
  currentColumns : List (Str × DbColumnInfo)
  existingIndexes : List Str
  existingUniques : List Str
deriving DecidableEq, Repr

def diffColumns (ctx : DiffContext) : List QueuedQuery :=
  dropColumnQueries ctx.table ctx.schema.fields ctx.currentColumns
    ++ addColumnQueries ctx.table ctx.schema.fields ctx.currentColumns
    ++ alterColumnQueries ctx.table ctx.schema.fields ctx.currentColumns

def expectedUniqueNames (table : Str) (fields : List (Str × FieldDefinition)) : List Str :=
  fields.filterMap (fun kv =>
    if kv.2.key = chs "UNI" then some (table ++ chs "_" ++ kv.1 ++ chs "_unique") else none)

/-- The drop half of `diffConstraints`: existing unique constraints not in
the expected set (emitted with type `RAW`). -/
def dropUniqueQueries (ctx : DiffContext) : List QueuedQuery :=
  let exp := expectedUniqueNames ctx.table ctx.schema.fields
  ctx.existingUniques.filterMap (fun u =>
    if u ∈ exp then none
    else some ⟨chs "ALTER TABLE " ++ qt ctx.table ++ chs " DROP CONSTRAINT " ++ qt u ++ chs ";",
               ctx.table, chs "RAW", chs "Drop unique constraint " ++ u⟩)

/-- The add half of `diffConstraints`: missing unique constraints for
`UNI`-keyed fields (emitted with type `ADD_INDEX`). -/
def addUniqueQueries (ctx : DiffContext) : List QueuedQuery :=
  ctx.schema.fields.filterMap (fun kv =>
    if kv.2.key = chs "UNI" then
      let uniqueName := ctx.table ++ chs "_" ++ kv.1 ++ chs "_unique"
      if uniqueName ∈ ctx.existingUniques then none
      else some ⟨chs "ALTER TABLE " ++ qt ctx.table ++ chs " ADD CONSTRAINT " ++ qt uniqueName
                   ++ chs " UNIQUE (" ++ qt kv.1 ++ chs ");",
                 ctx.table, chs "ADD_INDEX", chs "Add unique constraint " ++ uniqueName⟩
    else none)

def diffConstraints (ctx : DiffContext) : List QueuedQuery :=
  dropUniqueQueries ctx ++ addUniqueQueries ctx

def expectedIndexNames (table : Str) (schema : ParsedSchema) : List Str :=
  schema.individualIndexes.map (fun f => table ++ chs "_" ++ f ++ chs "_idx")
    ++ schema.compositeIndexes.map (fun kv => table ++ chs "_" ++ kv.1 ++ chs "_idx")
    ++ schema.compositeUniqueIndexes.map (fun kv => table ++ chs "_" ++ kv.1 ++ chs "_unique_idx")
    ++ schema.fields.flatMap (fun kv =>
        (if kv.2.key = chs "UNI" then [table ++ chs "_" ++ kv.1 ++ chs "_unique"] else [])
          ++ (if kv.2.key = chs "PRI" then [table ++ chs "_pkey"] else []))

/-- The drop half of `diffIndexes`: existing indexes not in the expected
name set. -/
def dropIndexQueries (ctx : DiffContext) : List QueuedQuery :=
  let exp := expectedIndexNames ctx.table ctx.schema
  ctx.existingIndexes.filterMap (fun n =>
    if n ∈ exp then none
    else some ⟨chs "DROP INDEX IF EXISTS " ++ qt n ++ chs ";",
               ctx.table, chs "DROP_INDEX", chs "Drop index " ++ n⟩)

/-- The add half of `diffIndexes`: missing individual, composite and
composite-unique indexes (in that order). -/
def addIndexQueries (ctx : DiffContext) : List QueuedQuery :=
  let addInd := ctx.schema.individualIndexes.filterMap (fun f =>
    let indexName := ctx.table ++ chs "_" ++ f ++ chs "_idx"
    if indexName ∈ ctx.existingIndexes then none
    else some ⟨chs "CREATE INDEX CONCURRENTLY " ++ qt indexName ++ chs " ON " ++ qt ctx.table
                 ++ chs " (" ++ qt f ++ chs ");",
               ctx.table, chs "ADD_INDEX", chs "Add index " ++ indexName⟩)
  let addComp := ctx.schema.compositeIndexes.filterMap (fun kv =>
    let fullName := ctx.table ++ chs "_" ++ kv.1 ++ chs "_idx"
    if fullName ∈ ctx.existingIndexes then none
    else some ⟨chs "CREATE INDEX CONCURRENTLY " ++ qt fullName ++ chs " ON " ++ qt ctx.table
                 ++ chs " (" ++ List.intercalate (chs ", ") (kv.2.map qt) ++ chs ");",
               ctx.table, chs "ADD_INDEX", chs "Add composite index " ++ fullName⟩)
  let addCompU := ctx.schema.compositeUniqueIndexes.filterMap (fun kv =>
    let fullName := ctx.table ++ chs "_" ++ kv.1 ++ chs "_unique_idx"
    if fullName ∈ ctx.existingIndexes then none
    else some ⟨chs "CREATE UNIQUE INDEX CONCURRENTLY " ++ qt fullName ++ chs " ON " ++ qt ctx.table
                 ++ chs " (" ++ List.intercalate (chs ", ") (kv.2.map qt) ++ chs ");",
               ctx.table, chs "ADD_INDEX", chs "Add unique composite index " ++ fullName⟩)
  addInd ++ addComp ++ addCompU

def diffIndexes (ctx : DiffContext) : List QueuedQuery :=
  dropIndexQueries ctx ++ addIndexQueries ctx

/-- `generateUpdateTable`: the full diff for one existing table. -/
def generateUpdateTable (ctx : DiffContext) : List QueuedQuery :=
  diffColumns ctx ++ diffConstraints ctx ++ diffIndexes ctx

/-! ### SQL generator (`sqlGenerator.ts`) -/

/-- One column definition inside `CREATE TABLE`. -/
def colDefSql (k : Str) (v : FieldDefinition) : Str :=
  let type := v.type
  let nullable :=
    if v.nullable = chs "NOT NULL" then chs "NOT NULL"
    else if v.nullable = chs "NULL" then chs "NULL" else []
  let extra := v.extra
  let defaultClause :=
    if containsSub (chs "SERIAL") type then []
    else buildDefaultClause v.defaultValue type
  let s1 := qt k ++ chs " " ++ type
  let s2 := if nullable ≠ [] then s1 ++ chs " " ++ nullable else s1
  let s3 := if defaultClause ≠ [] then s2 ++ chs " " ++ defaultClause else s2
  let s4 := if extra ≠ [] then s3 ++ chs " " ++ extra else s3
  if v.key = chs "PRI" then s4 ++ chs " PRIMARY KEY" else s4

def generateCreateTable (table : Str) (schema : ParsedSchema) : List QueuedQuery :=
  let colDefs := schema.fields.map (fun kv => colDefSql kv.1 kv.2)
  let uniqueFields := schema.fields.filterMap (fun kv =>
    if kv.2.key = chs "UNI" then some kv.1 else none)
  let createSql := chs "CREATE TABLE " ++ qt table ++ chs " (\n"
    ++ List.intercalate (chs ",\n") colDefs ++ chs "\n);"
  let q0 : QueuedQuery := ⟨createSql, table, chs "CREATE_TABLE", chs "Create table " ++ table⟩
  let uniques := uniqueFields.map (fun f =>
    ⟨chs "ALTER TABLE " ++ qt table ++ chs " ADD CONSTRAINT "
        ++ qt (table ++ chs "_" ++ f ++ chs "_unique") ++ chs " UNIQUE (" ++ qt f ++ chs ");",
     table, chs "ADD_INDEX", chs "Add unique constraint " ++ table ++ chs "_" ++ f ++ chs "_unique"⟩)
  let inds := schema.individualIndexes.map (fun f =>
    (⟨chs "CREATE INDEX CONCURRENTLY " ++ qt (table ++ chs "_" ++ f ++ chs "_idx") ++ chs " ON "
        ++ qt table ++ chs " (" ++ qt f ++ chs ");",
      table, chs "ADD_INDEX", chs "Add index " ++ table ++ chs "_" ++ f ++ chs "_idx"⟩ : QueuedQuery))
  let comps := schema.compositeIndexes.map (fun kv =>
    (⟨chs "CREATE INDEX CONCURRENTLY " ++ qt (table ++ chs "_" ++ kv.1 ++ chs "_idx") ++ chs " ON "
        ++ qt table ++ chs " (" ++ List.intercalate (chs ", ") (kv.2.map qt) ++ chs ");",
      table, chs "ADD_INDEX",
      chs "Add composite index " ++ table ++ chs "_" ++ kv.1 ++ chs "_idx"⟩ : QueuedQuery))
  let compUs := schema.compositeUniqueIndexes.map (fun kv =>
    (⟨chs "CREATE UNIQUE INDEX CONCURRENTLY " ++ qt (table ++ chs "_" ++ kv.1 ++ chs "_unique_idx")
        ++ chs " ON " ++ qt table ++ chs " (" ++ List.intercalate (chs ", ") (kv.2.map qt) ++ chs ");",
      table, chs "ADD_INDEX",
      chs "Add unique composite index " ++ table ++ chs "_" ++ kv.1 ++ chs "_unique_idx"⟩ : QueuedQuery))
  q0 :: (uniques ++ inds ++ comps ++ compUs)

def generateDropTable (table : Str) : QueuedQuery :=
  ⟨chs "DROP TABLE IF EXISTS " ++ qt table ++ chs " CASCADE;",
   table, chs "DROP_TABLE", chs "Drop table " ++ table⟩

def generateCreateDatabase (name : Str) : QueuedQuery :=
  ⟨chs "CREATE DATABASE " ++ qt name ++ chs " ENCODING " ++ [sq] ++ chs "UTF8" ++ [sq] ++ chs ";",
   [], chs "CREATE_DB", chs "Create database " ++ name⟩

/-! ### DSL parser (`schemaParser.ts`) -/

/-- Custom field type definition (source field names `Type`, `Default`,
`Key`, `Extra`; renamed since `Type` is reserved in Lean). -/
structure CustomFieldDef where
  type : Str
  defaultVal : Option Str
  key : Option Str
  extra : Option Str
deriving DecidableEq, Repr

/-- Raw YAML scalar values as seen by the engine. -/
inductive YVal where
  | vStr (s : Str)
  | vBool (b : Bool)
  | vNum (n : Int)
  | vNull
deriving DecidableEq, Repr

/-- JavaScript truthiness of a YAML scalar. -/
def truthy : YVal → Bool
  | .vStr s => decide (s ≠ [])
  | .vBool b => b
  | .vNum n => decide (n ≠ 0)
  | .vNull => false

/-- JavaScript truthiness of an optional value (`undefined` is falsy). -/
def truthyOpt : Option YVal → Bool
  | none => false
  | some v => truthy v

/-- Length of the match of `/\(\d+(?:,\d+)?\)/` at the head of `l`, if any. -/
def parenNumAt (l : Str) : Option Nat :=
  match l with
  | '(' :: rest =>
    let ds := rest.takeWhile isDigitCh
    let r1 := rest.dropWhile isDigitCh
    if ds = [] then none
    else
      match r1 with
      | ')' :: _ => some (ds.length + 2)
      | ',' :: r2 =>
        let ds2 := r2.takeWhile isDigitCh
        let r3 := r2.dropWhile isDigitCh
        if ds2 = [] then none
        else
          match r3 with
          | ')' :: _ => some (ds.length + 1 + ds2.length + 2)
          | _ => none
      | _ => none
  | _ => none

/-- JavaScript `replace(/\(\d+(?:,\d+)?\)/, '')`: remove the first
parenthesized length from a type. -/
def removeFirstParenNum : Str → Str
  | [] => []
  | c :: cs =>
    match parenNumAt (c :: cs) with
    | some n => (c :: cs).drop n
    | none => c :: removeFirstParenNum cs

/-- Build the `FieldDefinition` for one DSL entry (the body of the
`parseSchema` loop up to the index handling). -/
def parseFieldDef (customFields : List (Str × CustomFieldDef))
    (fieldName rawValue : Str) : FieldDefinition :=
  let parts := splitWsRe rawValue
  let typePart := parts.headD []
  let tsplit := typePart.splitOn '/'
  let typeAlias := tsplit.headD []
  let lengthStr : Option Str := tsplit.get? 1
  let customDef := alookup typeAlias customFields
  let typeReal0 :=
    match customDef with
    | some cd => cd.type
    | none => typeAlias
  let typeReal :=
    match lengthStr with
    | some ls =>
      if ls ≠ [] then removeFirstParenNum typeReal0 ++ chs "(" ++ ls ++ chs ")"
      else typeReal0
    | none => typeReal0
  let defaultFound : Option Str :=
    (parts.find? (fun p => strStarts (chs "default/") p)).map (fun p => p.drop 8)
  let defaultRaw : Option Str :=
    match defaultFound with
    | some d => some d
    | none =>
      match customDef with
      | some cd =>
        match cd.defaultVal with
        | some dv => if dv ≠ [] then some dv else none
        | none => none
      | none => none
  let nullable :=
    if typeAlias = chs "id" ∨ containsSub (chs "SERIAL") (upperStr typeReal) then []
    else if (chs "required") ∈ parts then chs "NOT NULL" else chs "NULL"
  let key0 := if (chs "unique") ∈ parts then chs "UNI" else []
  let key :=
    match customDef with
    | some cd =>
      match cd.key with
      | some k => if k ≠ [] then k else key0
      | none => key0
    | none => key0
  let extra :=
    upperStr (match customDef with
      | some cd => cd.extra.getD []
      | none => [])
  ⟨fieldName, upperStr typeReal, nullable, key, defaultRaw, extra⟩

/-- Append `f` to the group `g` of a composite-index map, creating the
group at the end when absent. -/
def compositePush (m : List (Str × List Str)) (g : Str) (f : Str) :
    List (Str × List Str) :=
  match alookup g m with
  | some l => oassign g (l ++ [f]) m
  | none => m ++ [(g, [f])]

/-- Process one modifier token for the index/unique-group maps. -/
def indexPartStep (fieldName : Str) (acc : ParsedSchema) (part : Str) : ParsedSchema :=
  let acc1 :=
    if part = chs "index" ∨ strStarts (chs "index/") part then
      match (part.splitOn '/').get? 1 with
      | some g =>
        if g ≠ [] then
          (g.splitOn ',').foldl (fun a gn =>
            { a with compositeIndexes := compositePush a.compositeIndexes gn fieldName }) acc
        else
          { acc with individualIndexes :=
              if fieldName ∈ acc.individualIndexes then acc.individualIndexes
              else acc.individualIndexes ++ [fieldName] }
      | none =>
        { acc with individualIndexes :=
            if fieldName ∈ acc.individualIndexes then acc.individualIndexes
            else acc.individualIndexes ++ [fieldName] }
    else acc
  if strStarts (chs "unique/") part then
    match (part.splitOn '/').get? 1 with
    | some g =>
      if g ≠ [] then
        (g.splitOn ',').foldl (fun a gn =>
          { a with compositeUniqueIndexes := compositePush a.compositeUniqueIndexes gn fieldName }) acc1
      else acc1
    | none => acc1
  else acc1

/-- Process one `(fieldName, rawValue)` entry of the YAML field map. -/
def parseSchemaStep (customFields : List (Str × CustomFieldDef))
    (acc : ParsedSchema) (entry : Str × YVal) : ParsedSchema :=
  if strStarts (chs "~") entry.1 then acc
  else
    match entry.2 with
    | .vStr rawValue =>
      let fd := parseFieldDef customFields entry.1 rawValue
      let acc1 := { acc with fields := oassign entry.1 fd acc.fields }
      (splitWsRe rawValue).foldl (indexPartStep entry.1) acc1
    | _ => acc

/-- `parseSchema`: parse a raw YAML field map into a `ParsedSchema`. -/
def parseSchema (fields : List (Str × YVal))
    (customFields : List (Str × CustomFieldDef)) : ParsedSchema :=
  fields.foldl (parseSchemaStep customFields) ⟨[], [], [], []⟩

/-! ### Migration orchestrator (`schemaEngine.ts` / `builder.ts`):
the per-table statement accumulation of `generateDiff`, with the catalog
reads abstracted into a reflection oracle. -/

/-- The three catalog reads for one existing table. -/
structure ReflectData where
  columns : List (Str × DbColumnInfo)
  indexes : List Str
  uniques : List Str
deriving DecidableEq, Repr

/-- Prefix rewrite: `~name` becomes `PREF + name` when a truthy prefix is set. -/
def finalTableName (pref : Option Str) (name : Str) : Str :=
  match pref with
  | some p => if strStarts (chs "~") name ∧ p ≠ [] then p ++ name.drop 1 else name
  | none => name

/-- The statements contributed by one top-level table entry
(`tableName` ↦ raw column map) of a declaration file. -/
def entryQueries (customFields : List (Str × CustomFieldDef)) (pref : Option Str)
    (tablesReal : List Str) (reflect : Str → Option ReflectData)
    (entry : Str × List (Str × YVal)) : List QueuedQuery :=
  let tableName := finalTableName pref entry.1
  if truthyOpt (alookup (chs "~ignore") entry.2) then []
  else
    let schema := parseSchema entry.2 customFields
    if schema.fields = [] then []
    else if tableName ∈ tablesReal then
      match reflect tableName with
      | none => []
      | some rd =>
        if rd.columns ≠ [] then
          generateUpdateTable ⟨tableName, schema, rd.columns, rd.indexes, rd.uniques⟩
        else []
    else generateCreateTable tableName schema

/-- All (prefix-rewritten) declared table names, ignored entries included. -/
def tablesNewOf (pref : Option Str)
    (files : List (List (Str × List (Str × YVal)))) : List Str :=
  files.flatMap (fun entries => entries.map (fun e => finalTableName pref e.1))

/-- The statement list accumulated by `generateDiff` over all declaration
files, plus the optional orphan drops. -/
def generateDiffModel (customFields : List (Str × CustomFieldDef)) (pref : Option Str)
    (tablesReal : List Str) (reflect : Str → Option ReflectData)
    (dropOrphans : Bool) (files : List (List (Str × List (Str × YVal)))) :
    List QueuedQuery :=
  let main := files.flatMap (fun entries =>
    entries.flatMap (entryQueries customFields pref tablesReal reflect))
  let tablesNew := tablesNewOf pref files
  let orphans :=
    if dropOrphans then
      (tablesReal.filter (fun t => decide (t ∉ tablesNew))).map generateDropTable
    else []
  main ++ orphans

/-! ### Seed reconciler: match-column discovery (`seedRunner.ts`) -/

/-- First match of `/\(([^)]+)\)/`: the content of the first nonempty
parenthesized group. -/
def firstParenGroup : Str → Option Str
  | [] => none
  | '(' :: rest =>
    let run := rest.takeWhile (fun c => c ≠ ')')
    if run ≠ [] ∧ run.length < rest.length then some run
    else firstParenGroup rest
  | _ :: rest => firstParenGroup rest

/-- `match[1].split(',').map(c => c.trim().replace(/"/g, ''))`. -/
def idxColsOf (g : Str) : List Str :=
  (g.splitOn ',').map (fun c => (trimWs c).filter (fun ch => decide (ch ≠ dq)))

/-- The unique-index scan of `runSeed`: the first `pg_indexes` definition that
contains `UNIQUE` and whose extracted columns are all present in the sample
row's keys. -/
def findUniqueMatch (seedKeys : List Str) : List Str → Option (List Str)
  | [] => none
  | d :: ds =>
    if containsSub (chs "UNIQUE") d then
      match firstParenGroup d with
      | some g =>
        let cols := idxColsOf g
        if cols.all (fun c => c ∈ seedKeys) then some cols
        else findUniqueMatch seedKeys ds
      | none => findUniqueMatch seedKeys ds
    else findUniqueMatch seedKeys ds

/-- Match-column discovery: primary-key columns present in the seed keys,
falling back to a unique-index scan when not all are present. -/
def computeMatchColumns (pkCols seedKeys : List Str) (idxDefs : List Str) : List Str :=
  let mc := pkCols.filter (fun k => k ∈ seedKeys)
  if mc.length < pkCols.length then
    match findUniqueMatch seedKeys idxDefs with
    | some cols => cols
    | none => mc
  else mc

/-! ### Executor named-parameter rewrite (`database.ts` `query`) -/

/-- `[a-zA-Z_]`, the first character of a `:name` placeholder. -/
def isIdentStartCh (c : Char) : Bool := isAlphaCh c || c = '_'

/-- Scanner for `replace(/(?<!:):([a-zA-Z_]\w*)/g, ...)` with the
bound-name → `$N` substitution: returns the rewritten string, the final
counter and the values pushed (in order).  The `Bool` argument tells
whether the previous character of the original string was a colon
(the negative look-behind). -/
def rewriteGo (params : List (Str × α)) : Nat → Str → Bool → Nat → (Str × Nat × List α)
  | _, [], _, n => ([], n, [])
  | 0, _ :: _, _, n => ([], n, [])
  | fuel + 1, ':' :: rest, prevColon, n =>
    if prevColon then
      let r := rewriteGo params fuel rest true n
      (':' :: r.1, r.2.1, r.2.2)
    else
      match rest with
      | c0 :: cs0 =>
        if isIdentStartCh c0 then
          let name := c0 :: cs0.takeWhile isWordCh
          let rest' := cs0.dropWhile isWordCh
          match alookup name params with
          | some v =>
            let r := rewriteGo params fuel rest' false (n + 1)
            (('$' :: natStr (n + 1)) ++ r.1, r.2.1, v :: r.2.2)
          | none =>
            let r := rewriteGo params fuel rest' false n
            ((':' :: name) ++ r.1, r.2.1, r.2.2)
        else
          let r := rewriteGo params fuel (c0 :: cs0) true n
          (':' :: r.1, r.2.1, r.2.2)
      | [] => ([':'], n, [])
  | fuel + 1, c :: rest, _, n =>
    let r := rewriteGo params fuel rest (decide (c = ':')) n
    (c :: r.1, r.2.1, r.2.2)

theorem rewriteGo_fuel (params : List (Str × α)) :
    ∀ (f f' : Nat) (l : Str) (b : Bool) (n : Nat), l.length ≤ f → l.length ≤ f' →
    rewriteGo params f l b n = rewriteGo params f' l b n := by
  intro f
  induction f with
  | zero =>
    intro f' l b n hf _
    have hl : l = [] := List.length_eq_zero.mp (Nat.le_zero.mp hf)
    subst hl
    cases f' <;> rfl
  | succ f ih =>
    intro f' l b n hf hf'
    cases l with
    | nil => cases f' <;> rfl
    | cons c rest =>
      cases f' with
      | zero => simp at hf'
      | succ g =>
        simp only [List.length_cons, Nat.add_le_add_iff_right] at hf hf'
        by_cases hc : c = ':'
        · subst hc
          cases rest with
          | nil => simp [rewriteGo]
          | cons c0 cs0 =>
            simp only [List.length_cons] at hf hf'
            rw [rewriteGo.eq_3, rewriteGo.eq_3]
            by_cases hb : b = true
            · rw [if_pos hb, if_pos hb,
                ih g (c0 :: cs0) true n (by simp; omega) (by simp; omega)]
            · rw [if_neg hb, if_neg hb]
              by_cases hi : isIdentStartCh c0 = true
              · rw [if_pos hi, if_pos hi]
                have hw := lengthDropWhileLe isWordCh cs0
                cases halk : alookup (c0 :: cs0.takeWhile isWordCh) params with
                | some v =>
                  simp only [halk]
                  rw [ih g (cs0.dropWhile isWordCh) false (n + 1) (by omega) (by omega)]
                | none =>
                  simp only [halk]
                  rw [ih g (cs0.dropWhile isWordCh) false n (by omega) (by omega)]
              · rw [if_neg hi, if_neg hi,
                  ih g (c0 :: cs0) true n (by simp; omega) (by simp; omega)]
        · rw [rewriteGo.eq_5 params b n f c rest (fun h => hc h),
            rewriteGo.eq_5 params b n g c rest (fun h => hc h),
            ih g rest (decide (c = ':')) n hf hf']

/-- Scanner for `replace(/(?<!:):([a-zA-Z_]\w*)/g, ...)` with the
bound-name → `$N` substitution: returns the rewritten string, the final
counter and the values pushed (in order).  The `Bool` argument tells
whether the previous character of the original string was a colon
(the negative look-behind). -/
def rewriteAux (params : List (Str × α)) (l : Str) (b : Bool) (n : Nat) :
    Str × Nat × List α :=
  rewriteGo params l.length l b n

/-- The named-parameter conversion of `Database.query`: with a nonempty
parameter map, rewrite `:name` placeholders and collect the values. -/
def queryRewrite (sql : Str) (params : List (Str × α)) : Str × List α :=
  if params.isEmpty then (sql, [])
  else
    let r := rewriteAux params sql false 0
    (r.1, r.2.2)

/-! ### Specification-side definitions

The two definitions below transcribe the SPECIFICATION's wording, not the
source; they exist only to be compared against the embedded source
functions. -/

/-- The category rank a statement has under the specification's claimed
emission order: all `DROP_COLUMN`, then all drop-unique statements (emitted
with type `RAW`), then all `DROP_INDEX`, then all `ADD_COLUMN`, then the
`ALTER_COLUMN` statements, then all `ADD_INDEX`, and the add-unique
statements (type `ADD_INDEX`, description `Add unique constraint ...`)
last. -/
def specClaimedRank (q : QueuedQuery) : Nat :=
  if q.type = chs "DROP_COLUMN" then 0
  else if q.type = chs "RAW" then 1
  else if q.type = chs "DROP_INDEX" then 2
  else if q.type = chs "ADD_COLUMN" then 3
  else if q.type = chs "ALTER_COLUMN" then 4
  else if q.type = chs "ADD_INDEX" then
    (if strStarts (chs "Add unique constraint") q.description then 6 else 5)
  else 7

/-- The match-column discovery the specification describes: all primary-key
columns present in the sample row gives the primary-key columns; otherwise
the first matching unique index; otherwise the empty set (insert-only). -/
def specMatchColumns (pkCols seedKeys : List Str) (idxDefs : List Str) : List Str :=
  if pkCols.all (fun k => k ∈ seedKeys) then pkCols
  else
    match findUniqueMatch seedKeys idxDefs with
    | some cols => cols
    | none => []

/-! ### Concrete inputs used by the claim checks -/

/-- A plain nullable INTEGER field (no key, no default, no extra). -/
def fdIntPlain (name : Str) : FieldDefinition :=
  ⟨name, chs "INTEGER", chs "NULL", [], none, []⟩

/-- A SERIAL primary-key field. -/
def fdSerialPri (name : Str) : FieldDefinition :=
  ⟨name, chs "SERIAL", [], chs "PRI", none, []⟩

/-- A SERIAL primary-key field carrying a (to-be-ignored) raw default. -/
def fdSerialDef : FieldDefinition :=
  ⟨chs "id", chs "SERIAL", [], chs "PRI", some (chs "7"), []⟩

/-- A reflected integer column: nullable, no default. -/
def dbIntCol : DbColumnInfo :=
  ⟨chs "integer", chs "YES", none, none, some 32, some 0⟩

/-- Diff input with one column to add and one stale unique constraint. -/
def ctxAddAndDropUnique : DiffContext :=
  ⟨chs "t", ⟨[(chs "b", fdIntPlain (chs "b"))], [], [], []⟩, [], [], [chs "t_old_unique"]⟩

/-- Diff input whose schema has no `PRI` field while the reflection still
lists the `t_pkey` index. -/
def ctxNoPriWithPkey : DiffContext :=
  ⟨chs "t", ⟨[(chs "a", fdIntPlain (chs "a"))], [], [], []⟩,
   [(chs "a", dbIntCol)], [chs "t_pkey"], []⟩

/-- Diff input with a `PRI` field and the `t_pkey` index present. -/
def ctxPriWithPkey : DiffContext :=
  ⟨chs "t", ⟨[(chs "a", fdSerialPri (chs "a"))], [], [], []⟩,
   [(chs "a", dbIntCol)], [chs "t_pkey"], []⟩

/-- A custom-field alias whose `Key` is `PRI`. -/
def cfEmailPri : List (Str × CustomFieldDef) :=
  [(chs "email", ⟨chs "VARCHAR(255)", none, some (chs "PRI"), none⟩)]

/-- A declaration entry carrying a truthy table-level `~ignore`. -/
def ignoredEntry : Str × List (Str × YVal) :=
  (chs "t", [(chs "~ignore", YVal.vBool true), (chs "id", YVal.vStr (chs "id"))])

/-! ## Lemmas about whitespace trimming and collapsing -/

theorem dropWhile_idem (p : Char → Bool) (l : Str) :
    (l.dropWhile p).dropWhile p = l.dropWhile p := by
  induction l with
  | nil => rfl
  | cons a l ih =>
    by_cases h : p a = true
    · rw [List.dropWhile_cons_of_pos h]; exact ih
    · rw [List.dropWhile_cons_of_neg h, List.dropWhile_cons_of_neg h]

/-- Removal of trailing whitespace only. -/
def dropRightWs (l : Str) : Str := (l.reverse.dropWhile isWsCh).reverse

theorem trimWs_eq (l : Str) : trimWs l = dropRightWs (l.dropWhile isWsCh) := rfl

theorem dropRightWs_idem (l : Str) : dropRightWs (dropRightWs l) = dropRightWs l := by
  unfold dropRightWs
  rw [List.reverse_reverse, dropWhile_idem]

theorem head_not_ws_of_dropWhile_eq {l : Str} (h : l.dropWhile isWsCh = l) :
    ∀ c, l.head? = some c → isWsCh c = false := by
  intro c hc
  cases l with
  | nil => simp at hc
  | cons a t =>
    injection hc with hc
    subst hc
    by_cases hw : isWsCh a = true
    · rw [List.dropWhile_cons_of_pos hw] at h
      have h1 := congrArg List.length h
      simp only [List.length_cons] at h1
      have h2 := lengthDropWhileLe isWsCh t
      omega
    · simpa using hw

theorem dropWhile_eq_self_of_head {p : Char → Bool} {l : Str}
    (h : ∀ c, l.head? = some c → p c = false) : l.dropWhile p = l := by
  cases l with
  | nil => rfl
  | cons a t => rw [List.dropWhile_cons_of_neg (by simp [h a rfl])]

theorem dropRightWs_isPre (l : Str) : dropRightWs l <+: l := by
  have h : l.reverse.dropWhile isWsCh <:+ l.reverse := List.dropWhile_suffix _
  have h2 := (@List.reverse_prefix Char (l.reverse.dropWhile isWsCh) l.reverse).mpr h
  simpa [dropRightWs] using h2

theorem head?_of_isPre {l₁ l₂ : Str} (h : l₁ <+: l₂) (hne : l₁ ≠ []) :
    l₂.head? = l₁.head? := by
  obtain ⟨t, rfl⟩ := h
  cases l₁ with
  | nil => exact absurd rfl hne
  | cons a l => rfl

theorem trimWs_idem (l : Str) : trimWs (trimWs l) = trimWs l := by
  rw [trimWs_eq, trimWs_eq]
  have h1 : (dropRightWs (l.dropWhile isWsCh)).dropWhile isWsCh
      = dropRightWs (l.dropWhile isWsCh) := by
    apply dropWhile_eq_self_of_head
    intro c hc
    have hne : dropRightWs (l.dropWhile isWsCh) ≠ [] := by
      intro he
      rw [he] at hc
      simp at hc
    have hh := head?_of_isPre (dropRightWs_isPre (l.dropWhile isWsCh)) hne
    exact head_not_ws_of_dropWhile_eq (dropWhile_idem _ _) c (hh.trans hc)
  rw [h1, dropRightWs_idem]

/-- Canonicalization is insensitive to outer whitespace. -/
theorem canon_trimWs (x : Str) :
    normalizeDbDefaultForCompare (trimWs x) = normalizeDbDefaultForCompare x := by
  unfold normalizeDbDefaultForCompare
  rw [trimWs_idem]

end XPg

namespace XPg

/-! ## Claim C6: the emitted default always compares as "same" -/

/-- C6: for every field whose raw DSL default normalizes (for emission) to a
non-absent expression `e`, diffing that field against a reflected default
equal to `e` reports "same": `checkDefaultMismatch` emits neither a
`SET DEFAULT` nor a `DROP DEFAULT` statement. -/
theorem C6_theorem (table colName : Str) (fieldDef : FieldDefinition)
    (dbCol : DbColumnInfo) (e : Str)
    (hn : normalizeDefaultSql fieldDef.defaultValue fieldDef.type = some e)
    (hdb : dbCol.column_default = some e) :
    checkDefaultMismatch table colName fieldDef dbCol = [] := by
  unfold checkDefaultMismatch
  by_cases hs : containsSub (chs "SERIAL") fieldDef.type = true
  · simp [hs]
  · by_cases hp : fieldDef.key = chs "PRI"
        ∧ containsSub (chs "nextval(") (lowerStr (dbCol.column_default.getD [])) = true
    · simp only [hs, hp]
      simp
    · have hb : buildDefaultClause fieldDef.defaultValue fieldDef.type = chs "DEFAULT " ++ e := by
        unfold buildDefaultClause
        rw [hn]
      have h8 : (chs "DEFAULT ").length = 8 := rfl
      have hdrop : (chs "DEFAULT " ++ e).drop 8 = e := by
        rw [← h8, List.drop_left]
      have hne : ¬(chs "DEFAULT " ++ e = []) := by simp [chs]
      have hp2 : ¬(fieldDef.key = chs "PRI"
          ∧ containsSub (chs "nextval(") (lowerStr e) = true) := by
        rw [hdb] at hp
        simpa using hp
      simp only [hs, hb, hdb, Option.getD_some, hdrop]
      rw [if_neg (by simp), if_neg hp2]
      rw [if_neg hne, canon_trimWs]
      rw [if_neg (fun h => h.2 h.1), if_neg (fun h => h.2 rfl)]

/-- C6 witness: a concrete instantiation (`default/5` on an `INTEGER`
column whose reflected default is `5`). -/
theorem C6_witness :
    normalizeDefaultSql (some (chs "5")) (chs "INTEGER") = some (chs "5") ∧
    checkDefaultMismatch (chs "t") (chs "c")
      ⟨chs "c", chs "INTEGER", chs "NULL", [], some (chs "5"), []⟩
      ⟨chs "integer", chs "YES", none, some (chs "5"), some 32, some 0⟩ = [] :=
  ⟨by decide,
   C6_theorem (chs "t") (chs "c")
     ⟨chs "c", chs "INTEGER", chs "NULL", [], some (chs "5"), []⟩
     ⟨chs "integer", chs "YES", none, some (chs "5"), some 32, some 0⟩
     (chs "5") (by decide) (by decide)⟩

end XPg

namespace XPg

/-! ## Lemmas toward C4: fixed points of the canonicalization pipeline -/

theorem strStarts_mem {pat l : Str} (h : strStarts pat l = true) :
    ∀ x ∈ pat, x ∈ l := by
  induction pat generalizing l with
  | nil => intro x hx; simp at hx
  | cons p ps ih =>
    cases l with
    | nil => simp [strStarts] at h
    | cons c cs =>
      simp only [strStarts, Bool.and_eq_true, decide_eq_true_eq] at h
      intro x hx
      rcases List.mem_cons.mp hx with hx | hx
      · subst hx
        exact h.1 ▸ List.mem_cons_self _ _
      · exact List.mem_cons_of_mem _ (ih h.2 x hx)

theorem containsSub_mem {pat l : Str} (h : containsSub pat l = true) :
    ∀ x ∈ pat, x ∈ l := by
  induction l with
  | nil =>
    intro x hx
    simp only [containsSub, List.isEmpty_iff] at h
    subst h
    simp at hx
  | cons c cs ih =>
    simp only [containsSub, Bool.or_eq_true] at h
    intro x hx
    rcases h with h | h
    · exact strStarts_mem h x hx
    · exact List.mem_cons_of_mem _ (ih h x hx)

theorem lowCh_eq_lparen {y : Char} (h : lowCh y = '(') : y = '(' := by
  unfold lowCh at h
  split at h <;> simp_all

theorem mem_trimWs {x : Char} {l : Str} (h : x ∈ trimWs l) : x ∈ l := by
  unfold trimWs at h
  have h1 := List.mem_reverse.mp h
  have h2 := (List.dropWhile_suffix isWsCh).sublist.mem h1
  have h3 := List.mem_reverse.mp h2
  exact (List.dropWhile_suffix isWsCh).sublist.mem h3

theorem mem_collapseWs {x : Char} : ∀ {l : Str}, x ∈ collapseWs l → x ∈ l ∨ x = ' ' := by
  intro l
  induction l using collapseRec with
  | h1 => intro h; simp [collapseWs_nil] at h
  | h2 c cs h ih =>
    intro hx
    rw [collapseWs_cons, if_pos h] at hx
    rcases List.mem_cons.mp hx with hx | hx
    · exact Or.inr hx
    · rcases ih hx with hx | hx
      · exact Or.inl (List.mem_cons_of_mem _ ((List.dropWhile_suffix isWsCh).sublist.mem hx))
      · exact Or.inr hx
  | h3 c cs h ih =>
    intro hx
    rw [collapseWs_cons, if_neg h] at hx
    rcases List.mem_cons.mp hx with hx | hx
    · exact Or.inl (hx ▸ List.mem_cons_self _ _)
    · rcases ih hx with hx | hx
      · exact Or.inl (List.mem_cons_of_mem _ hx)
      · exact Or.inr hx

theorem head?_dropWhile_not {p : Char → Bool} :
    ∀ {l : Str} {c : Char}, (l.dropWhile p).head? = some c → p c = false := by
  intro l
  induction l with
  | nil => intro c h; simp at h
  | cons a t ih =>
    intro c h
    by_cases ha : p a = true
    · rw [List.dropWhile_cons_of_pos ha] at h
      exact ih h
    · rw [List.dropWhile_cons_of_neg ha] at h
      injection h with h
      subst h
      simpa using ha

/-- Head of the collapse of a whitespace-stripped list is not whitespace. -/
theorem collapse_dropWhile_head {m : Str} {c : Char}
    (h : (collapseWs (m.dropWhile isWsCh)).head? = some c) : isWsCh c = false := by
  have key : ∀ x : Str, x.dropWhile isWsCh = x → ∀ c0, (collapseWs x).head? = some c0 →
      isWsCh c0 = false := by
    intro x hx c0 h0
    cases x with
    | nil => simp [collapseWs_nil] at h0
    | cons a t =>
      have ha : isWsCh a = false := @head?_dropWhile_not isWsCh (a :: t) a (by rw [hx]; rfl)
      rw [collapseWs_cons, if_neg (by simp [ha])] at h0
      injection h0 with h0
      subst h0
      exact ha
  exact key (m.dropWhile isWsCh) (dropWhile_idem _ _) c h

theorem collapse_idem (l : Str) : collapseWs (collapseWs l) = collapseWs l := by
  induction l using collapseRec with
  | h1 => simp [collapseWs_nil]
  | h2 c cs h ih =>
    rw [collapseWs_cons, if_pos h]
    rw [collapseWs_cons, if_pos (by decide)]
    have hfix : (collapseWs (cs.dropWhile isWsCh)).dropWhile isWsCh
        = collapseWs (cs.dropWhile isWsCh) :=
      dropWhile_eq_self_of_head (fun c hc => collapse_dropWhile_head hc)
    rw [hfix, ih]
  | h3 c cs h ih =>
    rw [collapseWs_cons, if_neg h]
    rw [collapseWs_cons, if_neg h, ih]

end XPg

namespace XPg

/-- A collapse-fixed cons has `collapse`-fixed tail, and a whitespace head
forces `' '` with a whitespace-free-headed tail. -/
theorem collapse_fixed_cons {c : Char} {cs : Str}
    (h : collapseWs (c :: cs) = c :: cs) :
    collapseWs cs = cs ∧ (isWsCh c = true → cs.dropWhile isWsCh = cs) := by
  by_cases hw : isWsCh c = true
  · rw [collapseWs_cons, if_pos hw] at h
    injection h with h1 h2
    have hfix : cs.dropWhile isWsCh = cs := by
      apply dropWhile_eq_self_of_head
      intro x hx
      exact @collapse_dropWhile_head cs x (by rw [h2]; exact hx)
    constructor
    · calc collapseWs cs = collapseWs (cs.dropWhile isWsCh) := by rw [hfix]
        _ = cs := h2
    · intro _
      exact hfix
  · rw [collapseWs_cons, if_neg hw] at h
    injection h with h1 h2
    exact ⟨h2, fun hc => absurd hc hw⟩

/-- Collapse-fixedness is inherited by suffixes. -/
theorem collapse_fixed_suffix : ∀ {l s : Str}, collapseWs l = l → s <:+ l →
    collapseWs s = s := by
  intro l
  induction l with
  | nil =>
    intro s h hs
    rw [List.suffix_nil.mp hs]
    simp [collapseWs_nil]
  | cons c cs ih =>
    intro s h hs
    rcases List.suffix_cons_iff.mp hs with hs | hs
    · rw [hs]; exact h
    · exact ih (collapse_fixed_cons h).1 hs

/-- Collapse-fixedness is inherited by prefixes. -/
theorem collapse_fixed_isPre : ∀ {l p : Str}, collapseWs l = l → p <+: l →
    collapseWs p = p := by
  intro l
  induction l with
  | nil =>
    intro p h hp
    rw [List.prefix_nil.mp hp]
    simp [collapseWs_nil]
  | cons c cs ih =>
    intro p h hp
    cases p with
    | nil => simp [collapseWs_nil]
    | cons a ps =>
      obtain ⟨rfl, hps⟩ := List.cons_prefix_cons.mp hp
      have htail := (collapse_fixed_cons h).1
      by_cases hw : isWsCh a = true
      · have hc : a = ' ' := by
          rw [collapseWs_cons, if_pos hw] at h
          injection h with h1 _
          exact h1.symm
        have hcs := (collapse_fixed_cons h).2 hw
        have hpsfix : ps.dropWhile isWsCh = ps := by
          apply dropWhile_eq_self_of_head
          intro x hx
          have hne : ps ≠ [] := by
            intro he
            rw [he] at hx
            simp at hx
          have hxcs : cs.head? = some x := (head?_of_isPre hps hne).trans hx
          exact @head?_dropWhile_not isWsCh cs x (by rw [hcs]; exact hxcs)
        rw [collapseWs_cons, if_pos hw, hpsfix, ih htail hps, hc]
      · rw [collapseWs_cons, if_neg hw, ih htail hps]

/-- Collapse-fixedness is inherited by the trim of any prefix/suffix chain:
`trimWs` of a collapse-fixed list is collapse-fixed. -/
theorem collapse_fixed_trimWs {l : Str} (h : collapseWs l = l) :
    collapseWs (trimWs l) = trimWs l := by
  have h1 : l.dropWhile isWsCh <:+ l := List.dropWhile_suffix _
  have h2 : collapseWs (l.dropWhile isWsCh) = l.dropWhile isWsCh :=
    collapse_fixed_suffix h h1
  have h3 : trimWs l <+: l.dropWhile isWsCh := by
    rw [trimWs_eq]
    exact dropRightWs_isPre _
  exact collapse_fixed_isPre h2 h3

end XPg

namespace XPg

theorem collapse_ne_nil {l : Str} (h : l ≠ []) : collapseWs l ≠ [] := by
  cases l with
  | nil => exact absurd rfl h
  | cons c cs =>
    rw [collapseWs_cons]
    by_cases hw : isWsCh c = true
    · rw [if_pos hw]; simp
    · rw [if_neg hw]; simp

theorem getLast?_cons_of_ne {a : Char} {l : Str} (h : l ≠ []) :
    (a :: l).getLast? = l.getLast? := by
  have h2 : a :: l = [a] ++ l := rfl
  rw [h2, List.getLast?_append_of_ne_nil _ h]

theorem getLast?_of_suffix {s l : Str} (hs : s <:+ l) (h : s ≠ []) :
    l.getLast? = s.getLast? := by
  obtain ⟨t, rfl⟩ := hs
  rw [List.getLast?_append_of_ne_nil _ h]

/-- `collapseWs` preserves "the last character is not whitespace". -/
theorem collapse_getLast_not_ws :
    ∀ {l : Str}, (∀ c, l.getLast? = some c → isWsCh c = false) →
    ∀ c', (collapseWs l).getLast? = some c' → isWsCh c' = false := by
  intro l
  induction l using collapseRec with
  | h1 =>
    intro _ c' h'
    simp [collapseWs_nil] at h'
  | h2 c cs h ih =>
    intro hl c' h'
    rw [collapseWs_cons, if_pos h] at h'
    have hcs : cs ≠ [] := by
      intro he
      subst he
      exact absurd (hl c (by simp)) (by simp [h])
    have hlast : cs.getLast? = (c :: cs).getLast? := (getLast?_cons_of_ne hcs).symm
    have hdne : cs.dropWhile isWsCh ≠ [] := by
      intro he
      have hall := List.dropWhile_eq_nil_iff.mp he
      obtain ⟨x, hx⟩ : ∃ x, cs.getLast? = some x := by
        cases hcs2 : cs.getLast? with
        | none => exact absurd (List.getLast?_eq_none_iff.mp hcs2) hcs
        | some x => exact ⟨x, rfl⟩
      have hxmem : x ∈ cs := by
        obtain ⟨hne2, hxe⟩ := @List.mem_getLast?_eq_getLast Char cs x (by rw [hx]; rfl)
        rw [hxe]
        exact List.getLast_mem hne2
      exact absurd (hl x (by rw [← hlast]; exact hx)) (by simp [hall x hxmem])
    have hlast2 : (cs.dropWhile isWsCh).getLast? = cs.getLast? :=
      (getLast?_of_suffix (List.dropWhile_suffix _) hdne).symm
    have hRne : collapseWs (cs.dropWhile isWsCh) ≠ [] := collapse_ne_nil hdne
    rw [getLast?_cons_of_ne hRne] at h'
    apply ih
    · intro z hz
      apply hl z
      rw [← hlast, ← hlast2]
      exact hz
    · exact h'
  | h3 c cs h ih =>
    intro hl c' h'
    rw [collapseWs_cons, if_neg h] at h'
    by_cases hcs : cs = []
    · subst hcs
      simp [collapseWs_nil] at h'
      subst h'
      simpa using h
    · have hRne : collapseWs cs ≠ [] := collapse_ne_nil hcs
      rw [getLast?_cons_of_ne hRne] at h'
      apply ih
      · intro z hz
        apply hl z
        rw [← getLast?_cons_of_ne hcs] at hz
        exact hz
      · exact h'

end XPg

namespace XPg

theorem dropRightWs_eq_self {l : Str}
    (h : ∀ c, l.getLast? = some c → isWsCh c = false) : dropRightWs l = l := by
  unfold dropRightWs
  have h1 : l.reverse.dropWhile isWsCh = l.reverse := by
    apply dropWhile_eq_self_of_head
    intro c hc
    rw [List.head?_reverse] at hc
    exact h c hc
  rw [h1, List.reverse_reverse]

theorem head?_trimWs_not_ws {l : Str} {c : Char} (h : (trimWs l).head? = some c) :
    isWsCh c = false := by
  have hne : trimWs l ≠ [] := by
    intro he
    rw [he] at h
    simp at h
  have hp := dropRightWs_isPre (l.dropWhile isWsCh)
  rw [← trimWs_eq] at hp
  have := (head?_of_isPre hp hne).trans h
  exact head?_dropWhile_not this

theorem getLast?_trimWs_not_ws {l : Str} {c : Char} (h : (trimWs l).getLast? = some c) :
    isWsCh c = false := by
  unfold trimWs at h
  rw [List.getLast?_reverse] at h
  exact head?_dropWhile_not h

theorem head?_collapse_of_not_ws {l : Str} {c : Char}
    (hh : l.head? = some c) (hw : isWsCh c = false) :
    (collapseWs l).head? = some c := by
  cases l with
  | nil => simp at hh
  | cons a cs =>
    injection hh with hh
    subst hh
    rw [collapseWs_cons, if_neg (by simp [hw])]
    rfl

/-- `trimWs` fixes the collapse of a trimmed list. -/
theorem trimWs_collapse_trimWs (d : Str) :
    trimWs (collapseWs (trimWs d)) = collapseWs (trimWs d) := by
  by_cases hN : trimWs d = []
  · rw [hN]
    simp [collapseWs_nil, trimWs, dropRightWs]
  · obtain ⟨c, hhead⟩ : ∃ c, (trimWs d).head? = some c := by
      cases hTT : trimWs d with
      | nil => exact absurd hTT hN
      | cons a l => exact ⟨a, rfl⟩
    have hcw : isWsCh c = false := head?_trimWs_not_ws hhead
    have hch : (collapseWs (trimWs d)).head? = some c := head?_collapse_of_not_ws hhead hcw
    have h1 : (collapseWs (trimWs d)).dropWhile isWsCh = collapseWs (trimWs d) := by
      apply dropWhile_eq_self_of_head
      intro x hx
      rw [hch] at hx
      injection hx with hx
      subst hx
      exact hcw
    have h2 : ∀ x, (collapseWs (trimWs d)).getLast? = some x → isWsCh x = false :=
      fun x hx => collapse_getLast_not_ws (fun z hz => getLast?_trimWs_not_ws hz) x hx
    rw [trimWs_eq, h1]
    exact dropRightWs_eq_self h2

theorem castSplit_stripCasts (x : Str) : castSplit (stripCasts x) = none := by
  induction x using stripCastsRec with
  | h1 d p t h ih =>
    rw [stripCasts_some h]
    exact ih
  | h2 d h =>
    rw [stripCasts_of_none h]
    exact h

theorem collapse_fixed_stripCasts : ∀ {x : Str}, collapseWs x = x →
    collapseWs (stripCasts x) = stripCasts x := by
  intro x
  induction x using stripCastsRec with
  | h1 d p t hc ih =>
    intro h
    have hd := castSplit_eq hc
    have hp : p <+: d := ⟨':' :: ':' :: t, hd.symm⟩
    have hf1 : collapseWs p = p := collapse_fixed_isPre h hp
    have hf2 : collapseWs (trimWs p) = trimWs p := collapse_fixed_trimWs hf1
    rw [stripCasts_some hc]
    exact ih hf2
  | h2 d hn =>
    intro h
    rw [stripCasts_of_none hn]
    exact h

end XPg

namespace XPg

theorem trimWs_fixed_stripCasts : ∀ {x : Str}, trimWs x = x →
    trimWs (stripCasts x) = stripCasts x := by
  intro x
  induction x using stripCastsRec with
  | h1 d p t hc ih =>
    intro _
    rw [stripCasts_some hc]
    exact ih (trimWs_idem p)
  | h2 d hn =>
    intro h
    rw [stripCasts_of_none hn]
    exact h

theorem mem_stripCasts {y : Char} : ∀ {x : Str}, y ∈ stripCasts x → y ∈ x := by
  intro x
  induction x using stripCastsRec with
  | h1 d p t hc ih =>
    intro hy
    rw [stripCasts_some hc] at hy
    have hmy : y ∈ trimWs p := ih hy
    have h2 : y ∈ p := mem_trimWs hmy
    have hd := castSplit_eq hc
    rw [hd]
    exact List.mem_append_left _ h2
  | h2 d hn =>
    intro hy
    rw [stripCasts_of_none hn] at hy
    exact hy

theorem parenStrip_of_not_mem {x : Str} (h : '(' ∉ x) : parenStrip x = x := by
  unfold parenStrip
  rw [if_neg]
  intro hc
  obtain ⟨h1, _⟩ := hc
  cases x with
  | nil => simp at h1
  | cons a l =>
    injection h1 with h1
    exact h (h1 ▸ List.mem_cons_self _ _)

theorem quoteStrip_of_not_mem {x : Str} (h : sq ∉ x) : quoteStrip x = x := by
  unfold quoteStrip
  rw [if_neg]
  intro hc
  obtain ⟨h1, _⟩ := hc
  cases x with
  | nil => simp at h1
  | cons a l =>
    injection h1 with h1
    exact h (h1 ▸ List.mem_cons_self _ _)

theorem unescSq_of_not_mem : ∀ {x : Str}, sq ∉ x → unescSq x = x := by
  intro x
  induction x using unescSq.induct with
  | case1 => intro _; rfl
  | case2 c => intro _; rfl
  | case3 c1 c2 cs h ih =>
    intro hm
    simp only [Bool.and_eq_true, decide_eq_true_eq] at h
    exact absurd (h.1 ▸ List.mem_cons_self _ _) hm
  | case4 c1 c2 cs h ih =>
    intro hm
    rw [unescSq, if_neg (by simpa using h)]
    have h2 : sq ∉ c2 :: cs := fun hc => hm (List.mem_cons_of_mem _ hc)
    rw [ih h2]

end XPg

namespace XPg

theorem nextval_false_of_no_lparen {x : Str} (h : '(' ∉ x) :
    containsSub (chs "nextval(") (lowerStr x) = false := by
  apply Bool.eq_false_iff.mpr
  intro hc
  have hmemL : '(' ∈ lowerStr x := containsSub_mem hc '(' (by decide)
  obtain ⟨y, hy, hly⟩ := List.mem_map.mp hmemL
  exact h (lowCh_eq_lparen hly ▸ hy)

theorem encode_false_of_no_lparen {x : Str} (h : '(' ∉ x) :
    strStarts (chs "encode(") (lowerStr x) = false := by
  apply Bool.eq_false_iff.mpr
  intro hc
  have hmemL : '(' ∈ lowerStr x := strStarts_mem hc '(' (by decide)
  obtain ⟨y, hy, hly⟩ := List.mem_map.mp hmemL
  exact h (lowCh_eq_lparen hly ▸ hy)

/-- A string already fixed under every stage of the canonicalization
pipeline is a fixed point of the canonicalizer. -/
theorem canon_fixed_point {o : Str} (htrim : trimWs o = o) (hcoll : collapseWs o = o)
    (hnone : castSplit o = none) (hmp : '(' ∉ o) (hmq : sq ∉ o)
    (hb : ¬(lowerStr o = chs "true" ∨ lowerStr o = chs "false")) :
    normalizeDbDefaultForCompare o = o := by
  by_cases hoe : o = []
  · rw [hoe]; rfl
  · unfold normalizeDbDefaultForCompare
    rw [htrim, if_neg hoe, hcoll]
    dsimp only
    rw [nextval_false_of_no_lparen hmp]
    rw [encode_false_of_no_lparen hmp]
    simp only [Bool.false_eq_true, if_false]
    rw [stripCasts_of_none hnone]
    rw [parenStrip_of_not_mem hmp, quoteStrip_of_not_mem hmq]
    unfold boolLowerStr
    rw [if_neg hb]
    exact unescSq_of_not_mem hmq

/-- C4 (amended): canonicalization of reflected defaults is idempotent on
every input that contains no parenthesis and no single-quote character. -/
theorem C4_theorem (d : Str) (hp : '(' ∉ d) (hq : sq ∉ d) :
    normalizeDbDefaultForCompare (normalizeDbDefaultForCompare d)
      = normalizeDbDefaultForCompare d := by
  by_cases h0 : trimWs d = []
  · have hc : normalizeDbDefaultForCompare d = [] := by
      unfold normalizeDbDefaultForCompare
      rw [h0, if_pos rfl]
    rw [hc]
    rfl
  · have hmemT : ∀ x, x ∈ collapseWs (trimWs d) → x ∈ d ∨ x = ' ' := by
      intro x hx
      rcases mem_collapseWs hx with hx | hx
      · exact Or.inl (mem_trimWs hx)
      · exact Or.inr hx
    have hmem1 : '(' ∉ collapseWs (trimWs d) := by
      intro hm
      rcases hmemT _ hm with hm | hm
      · exact hp hm
      · exact absurd hm (by decide)
    have hmemq : sq ∉ collapseWs (trimWs d) := by
      intro hm
      rcases hmemT _ hm with hm | hm
      · exact hq hm
      · exact absurd hm (by decide)
    have hcd : normalizeDbDefaultForCompare d
        = unescSq (boolLowerStr (quoteStrip (parenStrip (stripCasts (collapseWs (trimWs d)))))) := by
      unfold normalizeDbDefaultForCompare
      rw [if_neg h0]
      dsimp only
      rw [nextval_false_of_no_lparen hmem1]
      rw [encode_false_of_no_lparen hmem1]
      simp only [Bool.false_eq_true, if_false]
    have hcoll_t1 : collapseWs (collapseWs (trimWs d)) = collapseWs (trimWs d) :=
      collapse_idem (trimWs d)
    have htrim_t1 : trimWs (collapseWs (trimWs d)) = collapseWs (trimWs d) :=
      trimWs_collapse_trimWs d
    have ho_coll : collapseWs (stripCasts (collapseWs (trimWs d)))
        = stripCasts (collapseWs (trimWs d)) := collapse_fixed_stripCasts hcoll_t1
    have ho_trim : trimWs (stripCasts (collapseWs (trimWs d)))
        = stripCasts (collapseWs (trimWs d)) := trimWs_fixed_stripCasts htrim_t1
    have ho_none : castSplit (stripCasts (collapseWs (trimWs d))) = none :=
      castSplit_stripCasts (collapseWs (trimWs d))
    have ho_memp : '(' ∉ stripCasts (collapseWs (trimWs d)) :=
      fun hm => hmem1 (mem_stripCasts hm)
    have ho_memq : sq ∉ stripCasts (collapseWs (trimWs d)) :=
      fun hm => hmemq (mem_stripCasts hm)
    have hps : parenStrip (stripCasts (collapseWs (trimWs d)))
        = stripCasts (collapseWs (trimWs d)) := parenStrip_of_not_mem ho_memp
    have hqs : quoteStrip (stripCasts (collapseWs (trimWs d)))
        = stripCasts (collapseWs (trimWs d)) := quoteStrip_of_not_mem ho_memq
    by_cases hb : lowerStr (stripCasts (collapseWs (trimWs d))) = chs "true"
        ∨ lowerStr (stripCasts (collapseWs (trimWs d))) = chs "false"
    · have hbl : boolLowerStr (stripCasts (collapseWs (trimWs d)))
          = lowerStr (stripCasts (collapseWs (trimWs d))) := by
        unfold boolLowerStr
        rw [if_pos hb]
      rcases hb with hb | hb
      · rw [hcd, hps, hqs, hbl, hb]
        decide
      · rw [hcd, hps, hqs, hbl, hb]
        decide
    · have hbl : boolLowerStr (stripCasts (collapseWs (trimWs d)))
          = stripCasts (collapseWs (trimWs d)) := by
        unfold boolLowerStr
        rw [if_neg hb]
      have hu : unescSq (stripCasts (collapseWs (trimWs d)))
          = stripCasts (collapseWs (trimWs d)) := unescSq_of_not_mem ho_memq
      rw [hcd, hps, hqs, hbl, hu]
      exact canon_fixed_point ho_trim ho_coll ho_none ho_memp ho_memq hb

/-- C4 counterexample: canonicalization is not idempotent on the code as
written — on `((0))` one application yields `(0)`, a second yields `0`. -/
theorem C4_counterexample :
    normalizeDbDefaultForCompare (normalizeDbDefaultForCompare (chs "((0))"))
      ≠ normalizeDbDefaultForCompare (chs "((0))") := by decide

/-- C4 witness: idempotence at a concrete parenthesis-free, quote-free input. -/
theorem C4_witness :
    ('(' ∉ chs "now::text" ∧ sq ∉ chs "now::text") ∧
    normalizeDbDefaultForCompare (normalizeDbDefaultForCompare (chs "now::text"))
      = normalizeDbDefaultForCompare (chs "now::text") :=
  ⟨by decide, C4_theorem (chs "now::text") (by decide) (by decide)⟩

end XPg

namespace XPg

/-! ## Classification of the diff engine's statement types -/

theorem mem_dropColumnQueries_type {q : QueuedQuery} {t : Str}
    {fs : List (Str × FieldDefinition)} {cc : List (Str × DbColumnInfo)}
    (h : q ∈ dropColumnQueries t fs cc) : q.type = chs "DROP_COLUMN" := by
  simp only [dropColumnQueries, List.mem_filterMap] at h
  obtain ⟨col, -, hq⟩ := h
  split at hq
  · have hA := Option.some.inj hq
    subst hA
    rfl
  · exact Option.noConfusion hq

theorem mem_addColumnQueries_type {q : QueuedQuery} {t : Str}
    {fs : List (Str × FieldDefinition)} {cc : List (Str × DbColumnInfo)}
    (h : q ∈ addColumnQueries t fs cc) : q.type = chs "ADD_COLUMN" := by
  simp only [addColumnQueries, List.mem_filterMap] at h
  obtain ⟨kv, -, hq⟩ := h
  split at hq
  · have hA := Option.some.inj hq
    subst hA
    rfl
  · exact Option.noConfusion hq

theorem mem_checkTypeMismatch_type {q : QueuedQuery} {t c ty : Str} {db : DbColumnInfo}
    (h : q ∈ checkTypeMismatch t c ty db) : q.type = chs "ALTER_COLUMN" := by
  unfold checkTypeMismatch at h
  try dsimp only at h
  split at h
  · rw [List.mem_singleton] at h
    subst h
    rfl
  · split at h
    · exact absurd h (List.not_mem_nil q)
    · split at h
      · split at h
        · rw [List.mem_singleton] at h
          subst h
          rfl
        · exact absurd h (List.not_mem_nil q)
      · split at h
        · split at h
          · rw [List.mem_singleton] at h
            subst h
            rfl
          · exact absurd h (List.not_mem_nil q)
        · exact absurd h (List.not_mem_nil q)

theorem mem_checkDefaultMismatch_type {q : QueuedQuery} {t c : Str}
    {fd : FieldDefinition} {db : DbColumnInfo}
    (h : q ∈ checkDefaultMismatch t c fd db) : q.type = chs "ALTER_COLUMN" := by
  unfold checkDefaultMismatch at h
  try dsimp only at h
  split at h
  · exact absurd h (List.not_mem_nil q)
  · split at h
    · exact absurd h (List.not_mem_nil q)
    · split at h
      · split at h
        · rw [List.mem_singleton] at h
          subst h
          rfl
        · split at h
          · rw [List.mem_singleton] at h
            subst h
            rfl
          · exact absurd h (List.not_mem_nil q)
      · split at h
        · rw [List.mem_singleton] at h
          subst h
          rfl
        · split at h
          · rw [List.mem_singleton] at h
            subst h
            rfl
          · exact absurd h (List.not_mem_nil q)

theorem mem_checkNullableMismatch_type {q : QueuedQuery} {t c : Str}
    {fd : FieldDefinition} {db : DbColumnInfo}
    (h : q ∈ checkNullableMismatch t c fd db) : q.type = chs "ALTER_COLUMN" := by
  unfold checkNullableMismatch at h
  try dsimp only at h
  split at h
  · exact absurd h (List.not_mem_nil q)
  · split at h
    · exact absurd h (List.not_mem_nil q)
    · split at h
      · rw [List.mem_singleton] at h
        subst h
        rfl
      · split at h
        · rw [List.mem_singleton] at h
          subst h
          rfl
        · exact absurd h (List.not_mem_nil q)

theorem mem_alterColumnQueries_type {q : QueuedQuery} {t : Str}
    {fs : List (Str × FieldDefinition)} {cc : List (Str × DbColumnInfo)}
    (h : q ∈ alterColumnQueries t fs cc) : q.type = chs "ALTER_COLUMN" := by
  simp only [alterColumnQueries, List.mem_flatMap] at h
  obtain ⟨kv, -, hq⟩ := h
  split at hq
  · exact absurd hq (by simp)
  · rcases List.mem_append.mp hq with h1 | h2
    · rcases List.mem_append.mp h1 with h3 | h4
      · exact mem_checkTypeMismatch_type h3
      · exact mem_checkDefaultMismatch_type h4
    · exact mem_checkNullableMismatch_type h2

theorem mem_dropUniqueQueries_type {q : QueuedQuery} {ctx : DiffContext}
    (h : q ∈ dropUniqueQueries ctx) : q.type = chs "RAW" := by
  unfold dropUniqueQueries at h
  dsimp only at h
  rw [List.mem_filterMap] at h
  obtain ⟨u, -, hq⟩ := h
  split at hq
  · exact Option.noConfusion hq
  · have hA := Option.some.inj hq
    subst hA
    rfl

theorem mem_addUniqueQueries_type {q : QueuedQuery} {ctx : DiffContext}
    (h : q ∈ addUniqueQueries ctx) : q.type = chs "ADD_INDEX" := by
  unfold addUniqueQueries at h
  rw [List.mem_filterMap] at h
  obtain ⟨kv, -, hq⟩ := h
  try dsimp only at hq
  split at hq
  · split at hq
    · exact Option.noConfusion hq
    · have hA := Option.some.inj hq
      subst hA
      rfl
  · exact Option.noConfusion hq

theorem mem_dropIndexQueries_type {q : QueuedQuery} {ctx : DiffContext}
    (h : q ∈ dropIndexQueries ctx) : q.type = chs "DROP_INDEX" := by
  unfold dropIndexQueries at h
  dsimp only at h
  rw [List.mem_filterMap] at h
  obtain ⟨n, -, hq⟩ := h
  split at hq
  · exact Option.noConfusion hq
  · have hA := Option.some.inj hq
    subst hA
    rfl

theorem mem_addIndexQueries_type {q : QueuedQuery} {ctx : DiffContext}
    (h : q ∈ addIndexQueries ctx) : q.type = chs "ADD_INDEX" := by
  unfold addIndexQueries at h
  dsimp only at h
  rcases List.mem_append.mp h with h1 | h4
  · rcases List.mem_append.mp h1 with h2 | h3
    · rw [List.mem_filterMap] at h2
      obtain ⟨f, -, hq⟩ := h2
      try dsimp only at hq
      split at hq
      · exact Option.noConfusion hq
      · have hA := Option.some.inj hq
        subst hA
        rfl
    · rw [List.mem_filterMap] at h3
      obtain ⟨kv, -, hq⟩ := h3
      try dsimp only at hq
      split at hq
      · exact Option.noConfusion hq
      · have hA := Option.some.inj hq
        subst hA
        rfl
  · rw [List.mem_filterMap] at h4
    obtain ⟨kv, -, hq⟩ := h4
    try dsimp only at hq
    split at hq
    · exact Option.noConfusion hq
    · have hA := Option.some.inj hq
      subst hA
      rfl

theorem mem_generateUpdateTable_type {q : QueuedQuery} {ctx : DiffContext}
    (h : q ∈ generateUpdateTable ctx) :
    q.type = chs "DROP_COLUMN" ∨ q.type = chs "ADD_COLUMN" ∨
    q.type = chs "ALTER_COLUMN" ∨ q.type = chs "RAW" ∨
    q.type = chs "ADD_INDEX" ∨ q.type = chs "DROP_INDEX" := by
  unfold generateUpdateTable at h
  rcases List.mem_append.mp h with h1 | h6
  · rcases List.mem_append.mp h1 with h2 | h5
    · unfold diffColumns at h2
      rcases List.mem_append.mp h2 with h3 | h4
      · rcases List.mem_append.mp h3 with ha | hb
        · exact Or.inl (mem_dropColumnQueries_type ha)
        · exact Or.inr (Or.inl (mem_addColumnQueries_type hb))
      · exact Or.inr (Or.inr (Or.inl (mem_alterColumnQueries_type h4)))
    · unfold diffConstraints at h5
      rcases List.mem_append.mp h5 with ha | hb
      · exact Or.inr (Or.inr (Or.inr (Or.inl (mem_dropUniqueQueries_type ha))))
      · exact Or.inr (Or.inr (Or.inr (Or.inr (Or.inl (mem_addUniqueQueries_type hb)))))
  · unfold diffIndexes at h6
    rcases List.mem_append.mp h6 with ha | hb
    · exact Or.inr (Or.inr (Or.inr (Or.inr (Or.inr (mem_dropIndexQueries_type ha)))))
    · exact Or.inr (Or.inr (Or.inr (Or.inr (Or.inl (mem_addIndexQueries_type hb)))))

theorem mem_generateCreateTable_type {q : QueuedQuery} {t : Str} {s : ParsedSchema}
    (h : q ∈ generateCreateTable t s) :
    q.type = chs "CREATE_TABLE" ∨ q.type = chs "ADD_INDEX" := by
  unfold generateCreateTable at h
  dsimp only at h
  rcases List.mem_cons.mp h with hq | hrest
  · subst hq
    exact Or.inl rfl
  · refine Or.inr ?_
    rcases List.mem_append.mp hrest with h1 | h4
  
    · rcases List.mem_append.mp h1 with h2 | h3
      · rcases List.mem_append.mp h2 with ha | hb
        · obtain ⟨f, -, hq⟩ := List.mem_map.mp ha
          subst hq
          rfl
        · obtain ⟨f, -, hq⟩ := List.mem_map.mp hb
          subst hq
          rfl
      · obtain ⟨kv, -, hq⟩ := List.mem_map.mp h3
        subst hq
        rfl
    · obtain ⟨kv, -, hq⟩ := List.mem_map.mp h4
      subst hq
      rfl

end XPg

namespace XPg

/-- C1 (amended): the diff for one table decomposes, in emission order, into
the segments DROP_COLUMN, ADD_COLUMN, ALTER_COLUMN, drop-unique (type
`RAW`), add-unique (type `ADD_INDEX`), DROP_INDEX, add-index (type
`ADD_INDEX`) — not the order the specification claims (drops first, adds
before alters, indexes last). -/
theorem C1_theorem (ctx : DiffContext) :
    ∃ a b c d e f g : List QueuedQuery,
      generateUpdateTable ctx = a ++ b ++ c ++ d ++ e ++ f ++ g ∧
      (∀ q ∈ a, q.type = chs "DROP_COLUMN") ∧
      (∀ q ∈ b, q.type = chs "ADD_COLUMN") ∧
      (∀ q ∈ c, q.type = chs "ALTER_COLUMN") ∧
      (∀ q ∈ d, q.type = chs "RAW") ∧
      (∀ q ∈ e, q.type = chs "ADD_INDEX") ∧
      (∀ q ∈ f, q.type = chs "DROP_INDEX") ∧
      (∀ q ∈ g, q.type = chs "ADD_INDEX") := by
  refine ⟨dropColumnQueries ctx.table ctx.schema.fields ctx.currentColumns,
    addColumnQueries ctx.table ctx.schema.fields ctx.currentColumns,
    alterColumnQueries ctx.table ctx.schema.fields ctx.currentColumns,
    dropUniqueQueries ctx, addUniqueQueries ctx, dropIndexQueries ctx, addIndexQueries ctx,
    ?_, fun q h => mem_dropColumnQueries_type h, fun q h => mem_addColumnQueries_type h,
    fun q h => mem_alterColumnQueries_type h, fun q h => mem_dropUniqueQueries_type h,
    fun q h => mem_addUniqueQueries_type h, fun q h => mem_dropIndexQueries_type h,
    fun q h => mem_addIndexQueries_type h⟩
  simp only [generateUpdateTable, diffColumns, diffConstraints, diffIndexes,
    List.append_assoc]

/-- C1 counterexample: on a table with one column to add and one stale
unique constraint, the diff emits `ADD_COLUMN` before the drop-unique
statement, so the specification's claimed order (all drops before all adds)
does not hold. -/
theorem C1_counterexample :
    ¬ List.Pairwise (fun q1 q2 => specClaimedRank q1 ≤ specClaimedRank q2)
        (generateUpdateTable ctxAddAndDropUnique) := by decide

/-- C2 (amended): when some field of the parsed schema is keyed `PRI`, the
diff never emits a `DROP_INDEX` statement for the `<table>_pkey` index. -/
theorem C2_theorem (ctx : DiffContext)
    (hpri : ∃ kv ∈ ctx.schema.fields, kv.2.key = chs "PRI") :
    ∀ q ∈ generateUpdateTable ctx, q.type = chs "DROP_INDEX" →
      q.sql ≠ chs "DROP INDEX IF EXISTS " ++ qt (ctx.table ++ chs "_pkey") ++ chs ";" := by
  intro q hq htype hsql
  unfold generateUpdateTable at hq
  rcases List.mem_append.mp hq with h1 | h6
  · rcases List.mem_append.mp h1 with h2 | h5
    · unfold diffColumns at h2
      rcases List.mem_append.mp h2 with h3 | h4
      · rcases List.mem_append.mp h3 with ha | hb
        · rw [mem_dropColumnQueries_type ha] at htype
          exact absurd htype (by decide)
        · rw [mem_addColumnQueries_type hb] at htype
          exact absurd htype (by decide)
      · rw [mem_alterColumnQueries_type h4] at htype
        exact absurd htype (by decide)
    · unfold diffConstraints at h5
      rcases List.mem_append.mp h5 with ha | hb
      · rw [mem_dropUniqueQueries_type ha] at htype
        exact absurd htype (by decide)
      · rw [mem_addUniqueQueries_type hb] at htype
        exact absurd htype (by decide)
  · unfold diffIndexes at h6
    rcases List.mem_append.mp h6 with ha | hb
    · unfold dropIndexQueries at ha
      try dsimp only at ha
      rw [List.mem_filterMap] at ha
      obtain ⟨n, -, hq2⟩ := ha
      split at hq2
      · exact Option.noConfusion hq2
      · rename_i hnotmem
        have hA := Option.some.inj hq2
        subst hA
        have hsql2 : chs "DROP INDEX IF EXISTS " ++ qt n ++ chs ";" =
            chs "DROP INDEX IF EXISTS " ++ qt (ctx.table ++ chs "_pkey") ++ chs ";" := hsql
        have h7 := List.append_cancel_left (List.append_cancel_right hsql2)
        unfold qt at h7
        injection h7 with h8 h9
        have h10 : n = ctx.table ++ chs "_pkey" := List.append_cancel_right h9
        apply hnotmem
        rw [h10]
        obtain ⟨kv, hkv, hkey⟩ := hpri
        unfold expectedIndexNames
        refine List.mem_append.mpr (Or.inr ?_)
        rw [List.mem_flatMap]
        refine ⟨kv, hkv, List.mem_append.mpr (Or.inr ?_)⟩
        rw [if_pos hkey]
        exact List.mem_singleton.mpr rfl
    · rw [mem_addIndexQueries_type hb] at htype
      exact absurd htype (by decide)

/-- C2 counterexample: with no `PRI` field in the schema, the reflected
`t_pkey` index is scheduled for drop, contradicting the specification's
"never dropped regardless of ParsedSchema". -/
theorem C2_counterexample :
    ∃ q ∈ generateUpdateTable ctxNoPriWithPkey,
      q.type = chs "DROP_INDEX" ∧
      q.sql = chs "DROP INDEX IF EXISTS "
        ++ qt (ctxNoPriWithPkey.table ++ chs "_pkey") ++ chs ";" := by decide

/-- C2 witness: on a concrete diff input with a `PRI` field and the
`t_pkey` index reflected, no `DROP_INDEX` statement for it is emitted. -/
theorem C2_witness :
    (∃ kv ∈ ctxPriWithPkey.schema.fields, kv.2.key = chs "PRI") ∧
    ∀ q ∈ generateUpdateTable ctxPriWithPkey, q.type = chs "DROP_INDEX" →
      q.sql ≠ chs "DROP INDEX IF EXISTS "
        ++ qt (ctxPriWithPkey.table ++ chs "_pkey") ++ chs ";" :=
  ⟨by decide, C2_theorem ctxPriWithPkey (by decide)⟩

end XPg

namespace XPg

/-- C3 (amended): seed match-column discovery uses the primary-key columns
when all of them occur in the sample row; otherwise the first matching
unique index; otherwise it RETAINS the partial subset of primary-key
columns present in the row (not the empty, insert-only set the
specification describes). -/
theorem C3_theorem (pkCols seedKeys idxDefs : List Str) :
    computeMatchColumns pkCols seedKeys idxDefs =
      if pkCols.all (fun k => k ∈ seedKeys) then pkCols
      else
        match findUniqueMatch seedKeys idxDefs with
        | some cols => cols
        | none => pkCols.filter (fun k => k ∈ seedKeys) := by
  unfold computeMatchColumns
  try dsimp only
  by_cases hall : pkCols.all (fun k => decide (k ∈ seedKeys)) = true
  · have hfe : pkCols.filter (fun k => decide (k ∈ seedKeys)) = pkCols :=
      List.filter_eq_self.mpr (by simpa [List.all_eq_true] using hall)
    rw [hfe, if_neg (Nat.lt_irrefl _), if_pos hall]
  · have hx : ∃ x ∈ pkCols, ¬ (decide (x ∈ seedKeys) = true) := by
      simpa [List.all_eq_true] using hall
    rw [if_pos (List.length_filter_lt_length_iff_exists.mpr hx), if_neg hall]

/-- C3 counterexample: with primary key `(a, b)` and a sample row holding
only `a`, the code keeps the partial subset `[a]` while the specification
prescribes the empty, insert-only match set. -/
theorem C3_counterexample :
    computeMatchColumns [chs "a", chs "b"] [chs "a"] [] ≠
      specMatchColumns [chs "a", chs "b"] [chs "a"] [] := by decide

/-- C5: for a column whose resolved type mentions SERIAL, the default check
and the nullability check emit nothing, and both the CREATE TABLE column
definition and the ADD COLUMN statement are insensitive to the declared
default (no DEFAULT clause is emitted). -/
theorem C5_theorem (table colName k : Str) (fd : FieldDefinition) (db : DbColumnInfo)
    (h : containsSub (chs "SERIAL") fd.type = true) :
    checkDefaultMismatch table colName fd db = [] ∧
    checkNullableMismatch table colName fd db = [] ∧
    colDefSql k fd = colDefSql k { fd with defaultValue := none } ∧
    addColumnQuery table k fd = addColumnQuery table k { fd with defaultValue := none } := by
  refine ⟨?_, ?_, ?_, ?_⟩
  · unfold checkDefaultMismatch
    try dsimp only
    rw [if_pos h]
  · unfold checkNullableMismatch
    try dsimp only
    rw [if_pos h]
  · simp [colDefSql, h]
  · simp [addColumnQuery, h]

/-- C5 witness: a concrete SERIAL primary-key column with a declared raw
default emits no default alter, no nullability alter, and the same column
definitions as without the default. -/
theorem C5_witness :
    checkDefaultMismatch (chs "t") (chs "id") fdSerialDef dbIntCol = [] ∧
    checkNullableMismatch (chs "t") (chs "id") fdSerialDef dbIntCol = [] ∧
    colDefSql (chs "id") fdSerialDef
      = colDefSql (chs "id") { fdSerialDef with defaultValue := none } ∧
    addColumnQuery (chs "t") (chs "id") fdSerialDef
      = addColumnQuery (chs "t") (chs "id") { fdSerialDef with defaultValue := none } :=
  C5_theorem (chs "t") (chs "id") (chs "id") fdSerialDef dbIntCol (by decide)

end XPg

namespace XPg

/-- Nothing a declaration entry contributes has statement type
`DROP_TABLE`. -/
theorem mem_entryQueries_type_ne {q : QueuedQuery}
    {cf : List (Str × CustomFieldDef)} {pref : Option Str} {tr : List Str}
    {refl : Str → Option ReflectData} {e : Str × List (Str × YVal)}
    (h : q ∈ entryQueries cf pref tr refl e) : q.type ≠ chs "DROP_TABLE" := by
  unfold entryQueries at h
  try dsimp only at h
  split at h
  · exact absurd h (List.not_mem_nil q)
  · split at h
    · exact absurd h (List.not_mem_nil q)
    · split at h
      · split at h
        · exact absurd h (List.not_mem_nil q)
        · split at h
          · intro habs
            rcases mem_generateUpdateTable_type h with h1 | h1 | h1 | h1 | h1 | h1 <;>
              (rw [h1] at habs; exact absurd habs (by decide))
          · exact absurd h (List.not_mem_nil q)
      · intro habs
        rcases mem_generateCreateTable_type h with h1 | h1 <;>
          (rw [h1] at habs; exact absurd habs (by decide))

/-- C7: a table-level truthy `~ignore` suppresses every statement for that
table: its entry contributes nothing, and (because ignored entries are
still recorded in the declared-table list before the ignore check) the
orphan-drop pass never emits a `DROP_TABLE` for its final table name. -/
theorem C7_theorem (customFields : List (Str × CustomFieldDef)) (pref : Option Str)
    (tablesReal : List Str) (reflect : Str → Option ReflectData) (dropOrphans : Bool)
    (files : List (List (Str × List (Str × YVal))))
    (fileEntries : List (Str × List (Str × YVal))) (entry : Str × List (Str × YVal))
    (hf : fileEntries ∈ files) (he : entry ∈ fileEntries)
    (hig : truthyOpt (alookup (chs "~ignore") entry.2) = true) :
    entryQueries customFields pref tablesReal reflect entry = [] ∧
    ∀ q ∈ generateDiffModel customFields pref tablesReal reflect dropOrphans files,
      q.type = chs "DROP_TABLE" → q.table ≠ finalTableName pref entry.1 := by
  constructor
  · unfold entryQueries
    try dsimp only
    rw [if_pos hig]
  · intro q hq htype
    unfold generateDiffModel at hq
    try dsimp only at hq
    rcases List.mem_append.mp hq with hmain | horph
    · rw [List.mem_flatMap] at hmain
      obtain ⟨entries, -, hent⟩ := hmain
      rw [List.mem_flatMap] at hent
      obtain ⟨e2, -, hq2⟩ := hent
      exact absurd htype (mem_entryQueries_type_ne hq2)
    · split at horph
      · rw [List.mem_map] at horph
        obtain ⟨tname, htn, hq3⟩ := horph
        rw [List.mem_filter] at htn
        obtain ⟨-, hnotin⟩ := htn
        subst hq3
        intro habs
        have hnotin2 : ¬ tname ∈ tablesNewOf pref files := of_decide_eq_true hnotin
        apply hnotin2
        have htab : tname = finalTableName pref entry.1 := habs
        rw [htab]
        unfold tablesNewOf
        rw [List.mem_flatMap]
        exact ⟨fileEntries, hf, List.mem_map.mpr ⟨entry, he, rfl⟩⟩
      · exact absurd horph (List.not_mem_nil q)

/-- C7 witness: a concrete ignored entry contributes nothing, and the
orphan pass of a model containing it never drops its table. -/
theorem C7_witness :
    entryQueries [] none [chs "t", chs "zombie"] (fun _ => none) ignoredEntry = [] ∧
    ∀ q ∈ generateDiffModel [] none [chs "t", chs "zombie"] (fun _ => none) true
        [[ignoredEntry]],
      q.type = chs "DROP_TABLE" → q.table ≠ finalTableName none ignoredEntry.1 :=
  C7_theorem [] none [chs "t", chs "zombie"] (fun _ => none) true [[ignoredEntry]]
    [ignoredEntry] ignoredEntry (by decide) (by decide) (by decide)

/-- C8: a field carrying the plain `unique` modifier and resolving through
a custom-field alias whose `Key` is set and nonempty ends up with the
alias's key: the alias assignment overrides the modifier assignment. -/
theorem C8_theorem (customFields : List (Str × CustomFieldDef))
    (fieldName rawValue : Str) (cd : CustomFieldDef) (k : Str)
    (hu : (chs "unique") ∈ splitWsRe rawValue)
    (ha : alookup ((((splitWsRe rawValue).headD []).splitOn '/').headD []) customFields
      = some cd)
    (hk : cd.key = some k) (hne : k ≠ []) :
    (parseFieldDef customFields fieldName rawValue).key = k := by
  unfold parseFieldDef
  try dsimp only
  rw [ha]
  try dsimp only
  rw [hk]
  try dsimp only
  rw [if_pos hne]

/-- C8 witness: `email unique` through an alias whose `Key` is `PRI` parses
with key `PRI`, not `UNI`. -/
theorem C8_witness :
    (parseFieldDef cfEmailPri (chs "e") (chs "email unique")).key = chs "PRI" :=
  C8_theorem cfEmailPri (chs "e") (chs "email unique")
    ⟨chs "VARCHAR(255)", none, some (chs "PRI"), none⟩ (chs "PRI")
    (by decide) (by decide) rfl (by decide)

/-- C10: the default check emits at most one statement per column: the DROP
DEFAULT and SET DEFAULT branches are mutually exclusive, so both are never
emitted for the same column in one diff. -/
theorem C10_theorem (table colName : Str) (fd : FieldDefinition) (db : DbColumnInfo) :
    (checkDefaultMismatch table colName fd db).length ≤ 1 ∧
    ∀ q1 ∈ checkDefaultMismatch table colName fd db,
      ∀ q2 ∈ checkDefaultMismatch table colName fd db, q1 = q2 := by
  have hcase : checkDefaultMismatch table colName fd db = [] ∨
      ∃ q, checkDefaultMismatch table colName fd db = [q] := by
    unfold checkDefaultMismatch
    try dsimp only
    split
    · exact Or.inl rfl
    · split
      · exact Or.inl rfl
      · split
        · split
          · exact Or.inr ⟨_, rfl⟩
          · split
            · exact Or.inr ⟨_, rfl⟩
            · exact Or.inl rfl
        · split
          · exact Or.inr ⟨_, rfl⟩
          · split
            · exact Or.inr ⟨_, rfl⟩
            · exact Or.inl rfl
  rcases hcase with hc | ⟨q, hc⟩ <;> rw [hc]
  · exact ⟨by simp, by simp⟩
  · refine ⟨by simp, ?_⟩
    intro q1 h1 q2 h2
    rw [List.mem_singleton] at h1 h2
    rw [h1, h2]

end XPg

namespace XPg

/-- Splitting `takeWhile`/`dropWhile` at a known word/non-word boundary. -/
theorem takeWhile_append_all {p : Char → Bool} : ∀ (w : Str) {rest : Str},
    (∀ d ∈ w, p d = true) → (∀ d, rest.head? = some d → p d = false) →
    (w ++ rest).takeWhile p = w ∧ (w ++ rest).dropWhile p = rest := by
  intro w
  induction w with
  | nil =>
    intro rest hw hr
    cases rest with
    | nil => exact ⟨rfl, rfl⟩
    | cons d r2 =>
      have hd := hr d rfl
      constructor
      · rw [List.nil_append, List.takeWhile_cons_of_neg (by simp [hd])]
      · rw [List.nil_append, List.dropWhile_cons_of_neg (by simp [hd])]
  | cons a w2 ih =>
    intro rest hw hr
    have ha : p a = true := hw a (List.mem_cons_self a w2)
    obtain ⟨h1, h2⟩ := ih (fun d hd => hw d (List.mem_cons_of_mem a hd)) hr
    constructor
    · rw [List.cons_append, List.takeWhile_cons_of_pos ha, h1]
    · rw [List.cons_append, List.dropWhile_cons_of_pos ha, h2]

/-- The scanner copies a colon-free prefix verbatim, leaving the counter
and value list to the continuation. -/
theorem rewriteAux_append_pre (params : List (Str × α)) :
    ∀ (pre l : Str) (n : Nat), ':' ∉ pre →
    rewriteAux params (pre ++ l) false n =
      (pre ++ (rewriteAux params l false n).1,
       (rewriteAux params l false n).2.1, (rewriteAux params l false n).2.2) := by
  intro pre
  induction pre with
  | nil =>
    intro l n hp
    simp only [List.nil_append]
  | cons c pre2 ih =>
    intro l n hp
    have hc : ¬ c = ':' := fun hcc => hp (List.mem_cons.mpr (Or.inl hcc.symm))
    have hpre2 : ':' ∉ pre2 := fun hm => hp (List.mem_cons_of_mem c hm)
    unfold rewriteAux
    simp only [List.cons_append, List.length_cons]
    rw [rewriteGo.eq_5 params false n (pre2 ++ l).length c (pre2 ++ l) (fun hh => hc hh)]
    have hd : decide (c = ':') = false := decide_eq_false hc
    rw [hd]
    have hstep := ih l n hpre2
    unfold rewriteAux at hstep
    rw [hstep]

/-- The scanner leaves a `::` cast pair untouched; the continuation runs
with the look-behind set. -/
theorem rewriteAux_colon_colon (params : List (Str × α)) (rest : Str) (n : Nat) :
    rewriteAux params (':' :: ':' :: rest) false n =
      (':' :: ':' :: (rewriteAux params rest true n).1,
       (rewriteAux params rest true n).2.1, (rewriteAux params rest true n).2.2) := rfl

/-- A `:name` placeholder bound in the parameter map becomes `$ (n+1)` and
pushes its value in front of the continuation's values. -/
theorem rewriteAux_bind_head (params : List (Str × α)) (c : Char) (w rest : Str)
    (v : α) (n : Nat) (hc : isIdentStartCh c = true)
    (hw : ∀ d ∈ w, isWordCh d = true)
    (hr : ∀ d, rest.head? = some d → isWordCh d = false)
    (halk : alookup (c :: w) params = some v) :
    rewriteAux params (':' :: c :: (w ++ rest)) false n =
      (('$' :: natStr (n + 1)) ++ (rewriteAux params rest false (n + 1)).1,
       (rewriteAux params rest false (n + 1)).2.1,
       v :: (rewriteAux params rest false (n + 1)).2.2) := by
  obtain ⟨htake, hdrop⟩ := @takeWhile_append_all isWordCh w rest hw hr
  unfold rewriteAux
  simp only [List.length_cons]
  rw [rewriteGo.eq_3]
  rw [if_neg (by simp)]
  rw [if_pos hc]
  try dsimp only
  rw [htake, hdrop, halk]
  try dsimp only
  rw [rewriteGo_fuel params ((w ++ rest).length + 1) rest.length rest false (n + 1)
    (by simp [List.length_append]; omega) (Nat.le_refl _)]

/-- C9: the executor's named-parameter rewrite copies colon-free text
verbatim, never rewrites a colon preceded by a colon (`::type` casts are
kept), and replaces each `:name` whose name is bound in the parameter map
by `$N` with the counter increasing and the bound value appended to the
positional list; with a nonempty map `queryRewrite` is exactly this scan
from counter `0`. -/
theorem C9_theorem (params : List (Str × α)) (n : Nat) :
    (∀ pre l : Str, ':' ∉ pre →
      rewriteAux params (pre ++ l) false n =
        (pre ++ (rewriteAux params l false n).1,
         (rewriteAux params l false n).2.1, (rewriteAux params l false n).2.2)) ∧
    (∀ l : Str, ':' ∉ l → rewriteAux params l false n = (l, n, [])) ∧
    (∀ rest : Str,
      rewriteAux params (':' :: ':' :: rest) false n =
        (':' :: ':' :: (rewriteAux params rest true n).1,
         (rewriteAux params rest true n).2.1, (rewriteAux params rest true n).2.2)) ∧
    (∀ (c : Char) (w rest : Str) (v : α), isIdentStartCh c = true →
      (∀ d ∈ w, isWordCh d = true) → (∀ d, rest.head? = some d → isWordCh d = false) →
      alookup (c :: w) params = some v →
      rewriteAux params (':' :: c :: (w ++ rest)) false n =
        (('$' :: natStr (n + 1)) ++ (rewriteAux params rest false (n + 1)).1,
         (rewriteAux params rest false (n + 1)).2.1,
         v :: (rewriteAux params rest false (n + 1)).2.2)) ∧
    (∀ sql : Str, params ≠ [] →
      queryRewrite sql params =
        ((rewriteAux params sql false 0).1, (rewriteAux params sql false 0).2.2)) := by
  refine ⟨fun pre l hp => rewriteAux_append_pre params pre l n hp, ?_,
    fun rest => rewriteAux_colon_colon params rest n,
    fun c w rest v hc hw hr halk => rewriteAux_bind_head params c w rest v n hc hw hr halk,
    ?_⟩
  · intro l hl
    have hstep := rewriteAux_append_pre params l [] n hl
    have h0 : rewriteAux params ([] : Str) false n = ([], n, []) := rfl
    rw [List.append_nil, h0] at hstep
    simpa using hstep
  · intro sql hps
    unfold queryRewrite
    rw [if_neg (fun hemp => hps (List.isEmpty_iff.mp hemp))]

end XPg
